import Mathlib

/-!
Verification development for the document-consistency and ambiguity-analysis
engine of the speckitmcp repository (src/src/tools/clarify.ts and
src/src/tools/status.ts, second document versions).

Documents are modelled as `List Char`.  JavaScript regular-expression scans
(`String.matchAll` with the `g` flag) are modelled as executable fuel-based
scanners that advance past each match, exactly mirroring the leftmost,
non-overlapping semantics of the source patterns.  The `i` flag is modelled
by ASCII case folding (`lowerChar`), which coincides with the ECMAScript
non-`u`-flag canonicalisation on the ASCII pattern characters used here.
-/

/-- Abbreviation for document text: a JavaScript string as a list of characters. -/
abbrev Str := List Char

/-- ASCII lower-casing of one character, the case folding performed by the
`i` regular-expression flag on the ASCII patterns of the source. -/
def lowerChar (c : Char) : Char :=
  if 'A' ≤ c ∧ c ≤ 'Z' then Char.ofNat (c.toNat + 32) else c

/-- ECMAScript word character (`\w` / `\b` boundaries): ASCII letters, digits, underscore. -/
def isWordChar (c : Char) : Bool :=
  ('A' ≤ c ∧ c ≤ 'Z') ∨ ('a' ≤ c ∧ c ≤ 'z') ∨ ('0' ≤ c ∧ c ≤ '9') ∨ c = '_'

/-- ECMAScript whitespace (`\s` and `String.prototype.trim`): tab, line
terminators, space, NBSP and the Unicode space separators. -/
def isJsWs (c : Char) : Bool :=
  let n := c.toNat
  (9 ≤ n ∧ n ≤ 13) ∨ n = 32 ∨ n = 160 ∨ n = 5760 ∨
  (8192 ≤ n ∧ n ≤ 8202) ∨ n = 8232 ∨ n = 8233 ∨ n = 8239 ∨ n = 8287 ∨ n = 12288 ∨ n = 65279

/-- `String.prototype.trim`: strip JavaScript whitespace from both ends. -/
def trimStr (s : Str) : Str :=
  ((s.dropWhile isJsWs).reverse.dropWhile isJsWs).reverse

/-- `String.prototype.toLowerCase`, restricted to ASCII (the only characters
the analysed patterns distinguish by case). -/
def toLowerStr (s : Str) : Str := s.map lowerChar

/-- Decimal digit character. -/
def digitChar (n : Nat) : Char := Char.ofNat (48 + n)

/-- Is this character an ASCII decimal digit? -/
def isDigit (c : Char) : Bool := '0' ≤ c ∧ c ≤ '9'

/-- Helper for `decimal`: fuel-based most-significant-first digit accumulation. -/
def decimalAux : Nat → Nat → Str → Str
  | 0, _, acc => acc
  | fuel + 1, n, acc =>
    if n < 10 then digitChar n :: acc
    else decimalAux fuel (n / 10) (digitChar (n % 10) :: acc)
  termination_by structural fuel => fuel

/-- Decimal rendering of a natural number, as a JavaScript template literal
renders a non-negative integer. -/
def decimal (n : Nat) : Str := decimalAux (n + 1) n []

/-- Case-insensitive literal match: consume `ps` from the front of `s`
(comparing ASCII-folded characters) and return the remainder on success. -/
def matchCI : Str → Str → Option Str
  | [], s => some s
  | _ :: _, [] => none
  | p :: ps, c :: cs => if lowerChar c = lowerChar p then matchCI ps cs else none

/-- The literal opening of the unresolved-marker pattern
`/\[NEEDS CLARIFICATION[^\]]*\]/i` from clarify.ts. -/
def markerPat : Str := "[NEEDS CLARIFICATION".toList

/-- Attempt the marker regular expression `\[NEEDS CLARIFICATION[^\]]*\]`
(case-insensitively) at the head of `s`; return the match length.  The
`[^\]]*` part consumes the maximal run of non-`]` characters and the match
requires a closing `]` right after it. -/
def matchMarkerAt (s : Str) : Option Nat :=
  match matchCI markerPat s with
  | none => none
  | some rest =>
    let run := rest.takeWhile (fun c => c != ']')
    if run.length < rest.length then some (markerPat.length + run.length + 1) else none

/-- Fuel-based global scan for the marker pattern: the leftmost-first,
non-overlapping semantics of `String.matchAll`.  Returns the list of
(start index, length) pairs in document order. -/
def scanAux : Nat → Str → List (Nat × Nat)
  | 0, _ => []
  | _ + 1, [] => []
  | fuel + 1, c :: rest =>
    match matchMarkerAt (c :: rest) with
    | some len =>
      (0, len) :: (scanAux fuel ((c :: rest).drop len)).map (fun q => (q.1 + len, q.2))
    | none => (scanAux fuel rest).map (fun q => (q.1 + 1, q.2))
  termination_by structural fuel => fuel

/-- All `[NEEDS CLARIFICATION…]` marker occurrences of a document, in
document order, as (start index, length) pairs —
`[...specContent.matchAll(markerRe)]` in the answer branch of clarify.ts. -/
def findMarkers (s : Str) : List (Nat × Nat) := scanAux s.length s

/-- Where an answer was applied: replacing a marker inline, or appended as a
new section at the end of the document. -/
inductive AppliedAt where
  | inline
  | appended
deriving DecidableEq

/-- The inline replacement text `[CLARIFIED: ${answer}]` from clarify.ts. -/
def clarifiedText (answer : Str) : Str :=
  "[CLARIFIED: ".toList ++ answer ++ [']']

/-- The appended section
`\n\n## Clarification Answer (Q${index + 1})\n\n${answer}\n` from
clarify.ts (note: the section carries no date). -/
def appendedSection (index : Int) (answer : Str) : Str :=
  "\n\n## Clarification Answer (Q".toList ++ decimal (index + 1).toNat ++
  ")\n\n".toList ++ answer ++ ['\n']

/-- The answer action of clarify.ts (lines 426-461 of the second document):
enumerate all marker occurrences; if `index >= allMatches.length`, append a
clarification section; otherwise access `allMatches[index]` and splice in the
inline annotation.  A negative index fails the `>=` test and then reads
`allMatches[index]` = `undefined`, so `match.index!` throws — modelled as
`none`.  The successful result carries the new document text and where the
answer was applied. -/
def answerOp (text : Str) (index : Int) (answer : Str) : Option (Str × AppliedAt) :=
  let allMatches := findMarkers text
  if (allMatches.length : Int) ≤ index then
    some (text ++ appendedSection index answer, AppliedAt.appended)
  else if index < 0 then
    none
  else
    match allMatches.get? index.toNat with
    | some (start, len) =>
      some (text.take start ++ clarifiedText answer ++ text.drop (start + len),
            AppliedAt.inline)
    | none => none

/-- Case-sensitive literal match: consume `ps` from the front of `s` and
return the remainder on success. -/
def dropLiteral : Str → Str → Option Str
  | [], s => some s
  | _ :: _, [] => none
  | p :: ps, c :: cs => if c = p then dropLiteral ps cs else none

/-- `String.prototype.includes`: case-sensitive substring containment. -/
def containsSub : Str → Str → Bool
  | [], pat => (dropLiteral pat []).isSome
  | c :: rest, pat => (dropLiteral pat (c :: rest)).isSome || containsSub rest pat

/-- Case-insensitive substring containment (a case-insensitive
regular-expression `test` of a literal pattern). -/
def containsCI : Str → Str → Bool
  | [], pat => (matchCI pat []).isSome
  | c :: rest, pat => (matchCI pat (c :: rest)).isSome || containsCI rest pat

/-- Is `c` an ASCII capital letter (`[A-Z]`)? -/
def isUpperAZ (c : Char) : Bool := 'A' ≤ c ∧ c ≤ 'Z'

/-- Case-insensitive word match at the head of `s` with a trailing word
boundary (`<word>\b`): the literal matches and the next character, if any,
is not a word character. -/
def matchWordCIAt (w : Str) (s : Str) : Bool :=
  (matchCI w s).isSome &&
    (match (s.drop w.length).head? with
     | some c => !isWordChar c
     | none => true)

/-- Global scan of `/\[NEEDS CLARIFICATION[^\]]*\]|TODO\b|TBD\b/gi`
returning matched texts in order: at each position try the alternatives in
regular-expression order, advancing past a match or by one character. -/
def markerTodoScan : Nat → Str → List Str
  | 0, _ => []
  | _ + 1, [] => []
  | fuel + 1, c :: rest =>
    match matchMarkerAt (c :: rest) with
    | some len => (c :: rest).take len :: markerTodoScan fuel ((c :: rest).drop len)
    | none =>
      if matchWordCIAt "TODO".toList (c :: rest) then
        (c :: rest).take 4 :: markerTodoScan fuel ((c :: rest).drop 4)
      else if matchWordCIAt "TBD".toList (c :: rest) then
        (c :: rest).take 3 :: markerTodoScan fuel ((c :: rest).drop 3)
      else markerTodoScan fuel rest
  termination_by structural fuel => fuel

/-- First alternative of a `\b(w1|w2|…)\b` alternation that matches
case-insensitively at the head of `s` with a trailing word boundary;
returns its length. -/
def firstAltWordCI : List Str → Str → Option Nat
  | [], _ => none
  | w :: ws, s => if matchWordCIAt w s then some w.length else firstAltWordCI ws s

/-- Global scan of a `\b(w1|w2|…)\b` alternation (case-insensitive),
returning matched texts.  `prev` is the character before the current
position, for the leading word boundary. -/
def wordAltScan (ws : List Str) : Nat → Option Char → Str → List Str
  | 0, _, _ => []
  | _ + 1, _, [] => []
  | fuel + 1, prev, c :: rest =>
    let boundary := match prev with | none => true | some p => !isWordChar p
    if boundary then
      match firstAltWordCI ws (c :: rest) with
      | some len =>
        (c :: rest).take len ::
          wordAltScan ws fuel ((c :: rest).take len).getLast? ((c :: rest).drop len)
      | none => wordAltScan ws fuel (some c) rest
    else wordAltScan ws fuel (some c) rest
  termination_by structural fuel => fuel

/-- Global scan of `/\b([A-Z]{3,})\b/g`: maximal runs of three or more
capital letters delimited by word boundaries. -/
def allcapsScan : Nat → Option Char → Str → List Str
  | 0, _, _ => []
  | _ + 1, _, [] => []
  | fuel + 1, prev, c :: rest =>
    let boundary := match prev with | none => true | some p => !isWordChar p
    let run := (c :: rest).takeWhile isUpperAZ
    if boundary && decide (3 ≤ run.length) &&
        (match ((c :: rest).drop run.length).head? with
         | some d => !isWordChar d
         | none => true) then
      run :: allcapsScan fuel run.getLast? ((c :: rest).drop run.length)
    else allcapsScan fuel (some c) rest
  termination_by structural fuel => fuel

/-- The 9 taxonomy categories of clarify.ts, in priority order. -/
def TAXONOMY : List Str :=
  ["Missing acceptance criteria".toList,
   "Vague quantifiers".toList,
   "Undefined terms".toList,
   "Missing error handling".toList,
   "Unstated assumptions".toList,
   "Scope ambiguity".toList,
   "Priority conflicts".toList,
   "Missing non-functional requirements".toList,
   "Dependency gaps".toList]

/-- `ALLCAPS_SKIP` of clarify.ts: legitimate ALLCAPS tokens that are not
reported as undefined terms. -/
def ALLCAPS_SKIP : List Str :=
  ["TODO".toList, "TBD".toList, "FIXME".toList, "RFC".toList, "API".toList,
   "URL".toList, "URI".toList, "ID".toList, "OK".toList,
   "UI".toList, "UX".toList, "HTTP".toList, "HTTPS".toList, "REST".toList,
   "CRUD".toList, "SQL".toList, "JWT".toList, "HTML".toList,
   "CSS".toList, "JSON".toList, "XML".toList, "SDK".toList, "CLI".toList,
   "MCP".toList, "MVP".toList, "SLA".toList, "SLO".toList,
   "NFR".toList, "FR".toList, "SC".toList, "PR".toList, "MUST".toList,
   "SHALL".toList, "MAY".toList, "SHOULD".toList, "COULD".toList]

/-- The vague-quantifier alternation of clarify.ts, in regular-expression
order. -/
def VAGUE_WORDS : List Str :=
  ["some".toList, "many".toList, "several".toList, "few".toList, "often".toList,
   "usually".toList, "sometimes".toList, "approximately".toList, "around".toList,
   "about".toList, "roughly".toList, "might".toList, "may".toList,
   "should consider".toList, "probably".toList]

/-- The heading test `/^#+\s/`: one or more `#` followed by a whitespace
character. -/
def isHeadingLine (line : Str) : Bool :=
  line.head? = some '#' &&
    (match (line.dropWhile (fun c => c = '#')).head? with
     | some c => isJsWs c
     | none => false)

/-- Positions (character indices) at which the word `w` matches
case-insensitively with word boundaries on both sides. -/
def wordPositionsCI (w : Str) : Nat → Nat → Option Char → Str → List Nat
  | 0, _, _, _ => []
  | _ + 1, _, _, [] => []
  | fuel + 1, pos, prev, c :: rest =>
    let boundary := match prev with | none => true | some p => !isWordChar p
    (if boundary && matchWordCIAt w (c :: rest) then [pos] else []) ++
      wordPositionsCI w fuel (pos + 1) (some c) rest
  termination_by structural fuel => fuel

/-- Test of `/\bGiven\b.+\bWhen\b/i` on a single line: a bounded "Given",
then at least one character, then a bounded "When". -/
def lineHasGivenWhen (line : Str) : Bool :=
  let gs := wordPositionsCI "given".toList line.length 0 none line
  let ws := wordPositionsCI "when".toList line.length 0 none line
  gs.any (fun i => ws.any (fun j => i + 6 ≤ j))

/-- Test of `/\bThen\b/i` on a single line. -/
def lineHasThen (line : Str) : Bool :=
  wordPositionsCI "then".toList line.length 0 none line ≠ []

/-- `content.split("\n")`. -/
def splitNl : Str → List Str
  | [] => [[]]
  | c :: rest =>
    match splitNl rest with
    | [] => [[c]]
    | h :: t => if c = '\n' then [] :: h :: t else (c :: h) :: t

/-- One ambiguity candidate, `interface AmbiguityCandidate` of clarify.ts.
`lineNumber` 0 marks a document-level candidate. -/
structure AmbiguityCandidate where
  lineNumber : Nat
  line : Str
  category : Str
  excerpt : Str
deriving DecidableEq

/-- The candidates contributed by a single line of the specification, in
detector order: markers, vague quantifiers, ALLCAPS terms (non-heading
lines only), then a Given-without-Then user story. -/
def lineCandidates (lineNumber : Nat) (line : Str) : List AmbiguityCandidate :=
  ((markerTodoScan line.length line).map
    (fun m => ⟨lineNumber, line, "Missing acceptance criteria".toList, m⟩)) ++
  ((wordAltScan VAGUE_WORDS line.length none line).map
    (fun m => ⟨lineNumber, line, "Vague quantifiers".toList, m⟩)) ++
  (if !isHeadingLine line then
    ((allcapsScan line.length none line).filter
      (fun t => !ALLCAPS_SKIP.contains t)).map
      (fun t => ⟨lineNumber, line, "Undefined terms".toList, t⟩)
   else []) ++
  (if lineHasGivenWhen line && !lineHasThen line then
    [⟨lineNumber, line, "Missing acceptance criteria".toList, (trimStr line).take 60⟩]
   else [])

/-- `detectAmbiguities` of clarify.ts: per-line candidates in line order,
then the two whole-document checks. -/
def detectAmbiguities (content : Str) : List AmbiguityCandidate :=
  (((splitNl content).enum.map (fun p => lineCandidates (p.1 + 1) p.2)).flatten) ++
  (if !(containsCI content "error handling".toList ||
        containsCI content "failure mode".toList ||
        containsCI content "exception".toList) then
    [⟨0, [], "Missing error handling".toList,
      "No error handling section found in spec".toList⟩]
   else []) ++
  (if !(containsCI content "non-functional".toList ||
        containsCI content "performance".toList ||
        containsCI content "scalability".toList ||
        containsCI content "availability".toList ||
        containsCI content "latency".toList ||
        containsCI content "throughput".toList) then
    [⟨0, [], "Missing non-functional requirements".toList,
      "No non-functional requirements section found in spec".toList⟩]
   else [])

/-- The deduplication key `${c.category}:${c.excerpt}` of buildQuestions. -/
def candKey (c : AmbiguityCandidate) : Str := c.category ++ ':' :: c.excerpt

/-- Deduplication by key with a seen-set, keeping the first occurrence of
each key in first-seen order. -/
def dedupAux (seen : List Str) : List AmbiguityCandidate → List AmbiguityCandidate
  | [] => []
  | c :: cs =>
    if seen.contains (candKey c) then dedupAux seen cs
    else c :: dedupAux (candKey c :: seen) cs

/-- Lookup of `categoryPriority[cat] ?? 99` over the taxonomy list. -/
def lookupPriority : List Str → Nat → Str → Nat
  | [], _, _ => 99
  | t :: ts, i, c => if c = t then i else lookupPriority ts (i + 1) c

/-- Taxonomy priority of a category (its index, 99 when unknown). -/
def categoryPriority (c : Str) : Nat := lookupPriority TAXONOMY 0 c

/-- Stable insertion step: place `a` before the first element of at least
its rank, preserving the relative order of equal ranks. -/
def insertByRank {α : Type} (r : α → Nat) (a : α) : List α → List α
  | [] => [a]
  | b :: bs => if r a ≤ r b then a :: b :: bs else b :: insertByRank r a bs

/-- Stable sort by a numeric rank.  ECMAScript `Array.prototype.sort` is
required (ES2019) to be stable, and a stable sorted permutation is unique,
so this insertion sort is extensionally the source's
`sort((a, b) => rank(a) - rank(b))`. -/
def stableSortByRank {α : Type} (r : α → Nat) : List α → List α
  | [] => []
  | a :: as => insertByRank r a (stableSortByRank r as)

/-- The candidates whose questions are returned: deduplicated, stably
sorted by taxonomy priority, truncated to the first 5. -/
def selectedCandidates (cands : List AmbiguityCandidate) : List AmbiguityCandidate :=
  (stableSortByRank (fun c => categoryPriority c.category) (dedupAux [] cands)).take 5

/-- The question rendering of buildQuestions:
`Q<n> [<category>] (line <l>): Regarding "<excerpt>" — please clarify this
ambiguity.`, with the line reference omitted for document-level candidates. -/
def renderQuestion (n : Nat) (c : AmbiguityCandidate) : Str :=
  "Q".toList ++ decimal n ++ " [".toList ++ c.category ++ "]".toList ++
  (if 0 < c.lineNumber then " (line ".toList ++ decimal c.lineNumber ++ ")".toList
   else []) ++
  ": Regarding \"".toList ++ c.excerpt ++
  "\" — please clarify this ambiguity.".toList

/-- `buildQuestions` of clarify.ts. -/
def buildQuestions (cands : List AmbiguityCandidate) : List Str :=
  (selectedCandidates cands).enum.map (fun p => renderQuestion (p.1 + 1) p.2)

/-- Modelled from the spec and claim wording for comparison: the claimed
question template `Q<n> [<category>] (line <n>): Regarding "<excerpt>" —
please clarify`, with the line reference omitted for document-level
candidates. -/
def claimQuestionTemplate (n : Nat) (category : Str) (lineNumber : Nat)
    (excerpt : Str) : Str :=
  "Q".toList ++ decimal n ++ " [".toList ++ category ++ "]".toList ++
  (if 0 < lineNumber then " (line ".toList ++ decimal lineNumber ++ ")".toList
   else []) ++
  ": Regarding \"".toList ++ excerpt ++ "\" — please clarify".toList

/-- The response of the scan action, with the run date threaded in as the
one run-dependent input. -/
structure ScanResponse where
  candidateCount : Nat
  questions : List Str
  text : Str
  isError : Bool

/-- Join output lines with newlines, `output.join("\n")`. -/
def joinNl (lines : List Str) : Str := List.intercalate ['\n'] lines

/-- The scan action of clarify.ts (lines 330-384 of the second document):
read the spec (`none` = missing file), detect candidates, build questions,
and render the report; the current date appears only in the report header. -/
def scanResponse (today featureName specPath : Str) (spec? : Option Str) :
    ScanResponse :=
  match spec? with
  | none =>
    { candidateCount := 0, questions := [],
      text := "spec.md not found at ".toList ++ specPath ++
        ". Create the spec first with speckit_specify.".toList
      isError := true }
  | some specContent =>
    let candidates := detectAmbiguities specContent
    let questions := buildQuestions candidates
    if questions.length = 0 then
      { candidateCount := candidates.length, questions := questions,
        text := "# Clarification Scan: ".toList ++ featureName ++
          "\n\nNo ambiguities detected. The spec appears well-specified.".toList
        isError := false }
    else
      { candidateCount := candidates.length, questions := questions,
        text := joinNl
          (["# Clarification Scan: ".toList ++ featureName,
            "**Date**: ".toList ++ today,
            "**Source**: ".toList ++ specPath,
            [],
            "Found ".toList ++ decimal candidates.length ++
              " candidate ambiguit".toList ++
              (if candidates.length = 1 then "y".toList else "ies".toList) ++
              " across ".toList ++ decimal TAXONOMY.length ++
              " taxonomy categories. Top ".toList ++ decimal questions.length ++
              " prioritized:".toList,
            [],
            "## Questions Requiring Clarification".toList,
            []] ++
           questions.map (fun q => "- ".toList ++ q) ++
           [[],
            "## Taxonomy Categories Checked".toList,
            []] ++
           TAXONOMY.map (fun cat => "- ".toList ++ cat) ++
           [[],
            "## Next Steps".toList,
            [],
            "Use `speckit_clarify` with `action=answer`, `question_index=<N>` (0-based), and `answer=<text>` to resolve each question.".toList])
        isError := false }

/-- Finding severity, `type Severity` of status.ts. -/
inductive Severity where
  | CRITICAL
  | HIGH
  | MEDIUM
  | LOW
deriving DecidableEq

/-- `SEVERITY_ORDER` of status.ts: the rank used to sort findings. -/
def SEVERITY_ORDER : Severity → Nat
  | Severity.CRITICAL => 0
  | Severity.HIGH => 1
  | Severity.MEDIUM => 2
  | Severity.LOW => 3

/-- One analysis finding, `interface Finding` of status.ts. -/
structure Finding where
  severity : Severity
  pass : Str
  message : Str
deriving DecidableEq

/-- The four technology-choice keys recognised by the constitution-alignment
pass, in the alternation order of `/\*\*(Language|Framework|Storage|Testing)\*\*:/`. -/
def TECH_KEYS : List Str :=
  ["Language".toList, "Framework".toList, "Storage".toList, "Testing".toList]

/-- Try each recognised key in alternation order: match the case-sensitive
literal `**<key>**:` at the front of `s`, returning the key and remainder. -/
def matchKeyPrefix : List Str → Str → Option (Str × Str)
  | [], _ => none
  | k :: ks, s =>
    match dropLiteral ("**".toList ++ k ++ "**:".toList) s with
    | some rest => some (k, rest)
    | none => matchKeyPrefix ks s

/-- Backtracking search for where `[^\n]+` can start after a greedy `\s*`:
try offset `j`, then `j-1`, …, `0`; succeed at the largest offset whose
character exists and is not a newline. -/
def searchValueStart : Nat → Str → Option Nat
  | 0, rest =>
    match rest.get? 0 with
    | some c => if c != '\n' then some 0 else none
    | none => none
  | j + 1, rest =>
    match rest.get? (j + 1) with
    | some c => if c != '\n' then some (j + 1) else searchValueStart j rest
    | none => searchValueStart j rest

/-- Attempt the technology-choice pattern
`\*\*(Language|Framework|Storage|Testing)\*\*:\s*([^\n]+)` at the head of
`s`; return the key, the captured value and the total match length. -/
def matchTechChoiceAt (s : Str) : Option (Str × Str × Nat) :=
  match matchKeyPrefix TECH_KEYS s with
  | none => none
  | some (k, rest) =>
    let w := (rest.takeWhile isJsWs).length
    match searchValueStart w rest with
    | none => none
    | some j =>
      let value := (rest.drop j).takeWhile (fun c => c != '\n')
      some (k, value, (2 + k.length + 3) + j + value.length)

/-- Fuel-based global scan for technology-choice declarations,
`[...constitution.matchAll(techChoiceRe)]` of status.ts. -/
def techChoiceScan : Nat → Str → List (Str × Str)
  | 0, _ => []
  | _ + 1, [] => []
  | fuel + 1, c :: rest =>
    match matchTechChoiceAt (c :: rest) with
    | some (k, v, len) => (k, v) :: techChoiceScan fuel ((c :: rest).drop len)
    | none => techChoiceScan fuel rest
  termination_by structural fuel => fuel

/-- All technology-choice declarations of a constitution document, in order. -/
def techChoices (con : Str) : List (Str × Str) := techChoiceScan con.length con

/-- JavaScript falsiness of a nullable string: `null` or the empty string. -/
def isFalsy : Option Str → Bool
  | none => true
  | some s => s.isEmpty

/-- First-seen deduplication of strings (JavaScript `Set` insertion order). -/
def dedupStrsAux (seen : List Str) : List Str → List Str
  | [] => []
  | s :: ss =>
    if seen.contains s then dedupStrsAux seen ss
    else s :: dedupStrsAux (s :: seen) ss

/-- `[...new Set(list)]`: distinct elements in first-seen order. -/
def dedupStrs (l : List Str) : List Str := dedupStrsAux [] l

/-- The vague-quantifier alternation of passAmbiguity in status.ts (it has
no "may" and no "should consider", unlike the scanner's list). -/
def AMB_VAGUE_WORDS : List Str :=
  ["some".toList, "many".toList, "several".toList, "few".toList, "often".toList,
   "usually".toList, "sometimes".toList, "approximately".toList, "around".toList,
   "about".toList, "roughly".toList, "might".toList, "probably".toList]

/-- Attempt a bracketed placeholder pattern `\[<word>\b[^\]]*\]`
(case-insensitive) at the head of `s`; return the match length. -/
def matchBracketPlaceholderAt (word : Str) (s : Str) : Option Nat :=
  match s with
  | [] => none
  | c :: rest =>
    if c = '[' then
      match matchCI word rest with
      | none => none
      | some rest2 =>
        let bOk := match rest2.head? with
                   | some d => !isWordChar d
                   | none => true
        if bOk then
          let run := rest2.takeWhile (fun d => d != ']')
          if run.length < rest2.length then some (1 + word.length + run.length + 1)
          else none
        else none
    else none

/-- The negative lookahead `(?!:?\s*\[)` after a bare placeholder word: an
optional colon, any whitespace, then `[`.  Since whitespace is never `[`,
the lookahead holds exactly when the first non-whitespace character after
the optional colon is `[`. -/
def placeholderLookahead (t : Str) : Bool :=
  let u := match t with
           | ':' :: tt => tt
           | _ => t
  (u.dropWhile isJsWs).head? = some '['

/-- Attempt a bare placeholder pattern `<word>(?!:?\s*\[)` (case-insensitive,
no word boundaries) at the head of `s`; return the match length. -/
def matchBarePlaceholderAt (word : Str) (s : Str) : Option Nat :=
  if (matchCI word s).isSome && !placeholderLookahead (s.drop word.length) then
    some word.length
  else none

/-- Count the non-overlapping matches of one pattern over a document. -/
def countPatAux (m : Str → Option Nat) : Nat → Str → Nat
  | 0, _ => 0
  | _ + 1, [] => 0
  | fuel + 1, c :: rest =>
    match m (c :: rest) with
    | some len => 1 + countPatAux m fuel ((c :: rest).drop len)
    | none => countPatAux m fuel rest
  termination_by structural fuel => fuel

/-- `countPlaceholders` of status.ts: each of the eight
`PLACEHOLDER_PATTERNS` is counted independently over the whole content and
the counts are summed (overlapping patterns count multiply). -/
def countPlaceholders (content : Str) : Nat :=
  countPatAux (matchBracketPlaceholderAt "TODO".toList) content.length content +
  countPatAux (matchBracketPlaceholderAt "TBD".toList) content.length content +
  countPatAux (matchBracketPlaceholderAt "FIXME".toList) content.length content +
  countPatAux (matchBracketPlaceholderAt "NEEDS CLARIFICATION".toList) content.length content +
  countPatAux (matchBracketPlaceholderAt "PLACEHOLDER".toList) content.length content +
  countPatAux (matchBarePlaceholderAt "TODO".toList) content.length content +
  countPatAux (matchBarePlaceholderAt "TBD".toList) content.length content +
  countPatAux (matchBarePlaceholderAt "FIXME".toList) content.length content

/-- `passAmbiguity` of status.ts: per artifact, unresolved markers (HIGH),
placeholder patterns (MEDIUM), and more than three vague quantifiers (LOW). -/
def passAmbiguity (artifacts : List (Str × Str)) : List Finding :=
  (artifacts.map (fun lc =>
    let label := lc.1
    let content := lc.2
    let unresolved := (markerTodoScan content.length content).length
    let placeholders := countPlaceholders content
    let vague := wordAltScan AMB_VAGUE_WORDS content.length none content
    (if 0 < unresolved then
      [{ severity := Severity.HIGH, pass := "Ambiguity".toList
         message := label ++ ": ".toList ++ decimal unresolved ++
           " unresolved marker".toList ++
           (if unresolved = 1 then [] else ['s']) ++
           " ([NEEDS CLARIFICATION], TODO, TBD).".toList }]
     else []) ++
    (if 0 < placeholders then
      [{ severity := Severity.MEDIUM, pass := "Ambiguity".toList
         message := label ++ ": ".toList ++ decimal placeholders ++
           " placeholder pattern".toList ++
           (if placeholders = 1 then [] else ['s']) ++
           " found (TODO/TBD/FIXME/etc.).".toList }]
     else []) ++
    (if 3 < vague.length then
      [{ severity := Severity.LOW, pass := "Ambiguity".toList
         message := label ++ ": ".toList ++ decimal vague.length ++
           " vague quantifier".toList ++
           (if vague.length = 1 then [] else ['s']) ++
           " (\"".toList ++
           List.intercalate "\", \"".toList ((dedupStrs (vague.map toLowerStr)).take 3) ++
           "\").".toList }]
     else []))).flatten

/-- The requirement-like lines of passDuplication: lines matching
`/^- .{20,}/gm`, trimmed and lower-cased. -/
def reqLines (content : Str) : List Str :=
  ((splitNl content).filter (fun l => l.take 2 = "- ".toList && decide (22 ≤ l.length))).map
    (fun l => toLowerStr (trimStr l))

/-- The ordered artifact pairs of passDuplication with their findings. -/
def dupPairs : List (Str × Str) → List Finding
  | [] => []
  | (la, ca) :: rest =>
    (rest.filterMap (fun lb =>
      let aLines := reqLines ca
      let bLines := reqLines lb.2
      let duplicates := aLines.filter (fun line => bLines.contains line)
      if 0 < duplicates.length then
        some { severity := Severity.MEDIUM, pass := "Duplication".toList
               message := la ++ " and ".toList ++ lb.1 ++ ": ".toList ++
                 decimal duplicates.length ++
                 " duplicated requirement line".toList ++
                 (if duplicates.length = 1 then [] else ['s']) ++
                 " detected.".toList }
      else none)) ++ dupPairs rest

/-- `passDuplication` of status.ts. -/
def passDuplication (artifacts : List (Str × Str)) : List Finding :=
  if artifacts.length < 2 then [] else dupPairs artifacts

/-- Positions at which a literal matches case-insensitively (no word
boundaries), for the `given.*when.*then` test. -/
def literalPositionsCI (w : Str) : Nat → Nat → Str → List Nat
  | 0, _, _ => []
  | _ + 1, _, [] => []
  | fuel + 1, pos, c :: rest =>
    (if (matchCI w (c :: rest)).isSome then [pos] else []) ++
      literalPositionsCI w fuel (pos + 1) rest
  termination_by structural fuel => fuel

/-- Does one line match `given.*when.*then` (case-insensitive, `.` does not
cross newlines so the whole match lies on one line)? -/
def lineHasGWTloose (line : Str) : Bool :=
  let gs := literalPositionsCI "given".toList line.length 0 line
  let ws := literalPositionsCI "when".toList line.length 0 line
  let ts := literalPositionsCI "then".toList line.length 0 line
  gs.any (fun g => ws.any (fun w => g + 5 ≤ w && ts.any (fun t => w + 4 ≤ t)))

/-- `passUnderspecification` of status.ts. -/
def passUnderspecification (spec plan tasks : Option Str) : List Finding :=
  (if isFalsy spec then
    [{ severity := Severity.CRITICAL, pass := "Underspecification".toList
       message := "spec.md is missing. No specification exists for this feature.".toList }]
   else
    match spec with
    | none => []
    | some sp =>
      (if !(containsCI sp "acceptance criteria".toList ||
            (splitNl sp).any lineHasGWTloose) then
        [{ severity := Severity.HIGH, pass := "Underspecification".toList
           message := "spec.md: No acceptance criteria detected (no Given/When/Then or 'Acceptance Criteria' section).".toList }]
       else []) ++
      (if !(containsCI sp "## requirements".toList ||
            containsCI sp "## functional".toList) then
        [{ severity := Severity.HIGH, pass := "Underspecification".toList
           message := "spec.md: No requirements section detected.".toList }]
       else [])) ++
  (if isFalsy plan then
    [{ severity := Severity.MEDIUM, pass := "Underspecification".toList
       message := "plan.md is missing. Consider creating a plan with speckit_plan.".toList }]
   else []) ++
  (if isFalsy tasks then
    [{ severity := Severity.MEDIUM, pass := "Underspecification".toList
       message := "tasks.md is missing. Consider creating tasks with speckit_tasks.".toList }]
   else [])

/-- Global scan of `/\bFR-(\d+)\b/g` (case-sensitive), returning the full
matched identifiers `FR-<digits>`. -/
def frScan : Nat → Option Char → Str → List Str
  | 0, _, _ => []
  | _ + 1, _, [] => []
  | fuel + 1, prev, c :: rest =>
    let s := c :: rest
    let boundary := match prev with | none => true | some p => !isWordChar p
    match dropLiteral "FR-".toList s with
    | some rest2 =>
      let ds := rest2.takeWhile isDigit
      if boundary && decide (1 ≤ ds.length) &&
          (match (rest2.drop ds.length).head? with
           | some d => !isWordChar d
           | none => true) then
        ("FR-".toList ++ ds) :: frScan fuel ds.getLast? (rest2.drop ds.length)
      else frScan fuel (some c) rest
    | none => frScan fuel (some c) rest
  termination_by structural fuel => fuel

/-- The section headings of a plan, `/^## (.+)/gm` captures trimmed. -/
def planSectionHeadings (plan : Str) : List Str :=
  (splitNl plan).filterMap (fun l =>
    if l.take 3 = "## ".toList && decide (4 ≤ l.length) then some (trimStr (l.drop 3))
    else none)

/-- `passCoverageGaps` of status.ts. -/
def passCoverageGaps (spec plan tasks : Option Str) : List Finding :=
  (match spec, plan with
   | some sp, some pl =>
     if sp.isEmpty || pl.isEmpty then []
     else
       let frIds := frScan sp.length none sp
       let uncoveredFRs := frIds.filter (fun fr => !containsSub pl fr)
       if 0 < uncoveredFRs.length then
         [{ severity := Severity.HIGH, pass := "Coverage Gaps".toList
            message := decimal uncoveredFRs.length ++
              " spec requirement".toList ++
              (if uncoveredFRs.length = 1 then [] else ['s']) ++
              " not referenced in plan.md: ".toList ++
              List.intercalate ", ".toList (uncoveredFRs.take 5) ++
              (if 5 < uncoveredFRs.length then "...".toList else []) ++
              ".".toList }]
       else []
   | _, _ => []) ++
  (match plan, tasks with
   | some pl, some tk =>
     if pl.isEmpty || tk.isEmpty then []
     else
       let planSections := planSectionHeadings pl
       let uncoveredSections := planSections.filter
         (fun sec => !containsSub (toLowerStr tk) (toLowerStr sec))
       if 0 < uncoveredSections.length then
         [{ severity := Severity.MEDIUM, pass := "Coverage Gaps".toList
            message := decimal uncoveredSections.length ++
              " plan section".toList ++
              (if uncoveredSections.length = 1 then [] else ['s']) ++
              " not referenced in tasks.md: \"".toList ++
              List.intercalate "\", \"".toList (uncoveredSections.take 3) ++
              ['"'] ++
              (if 3 < uncoveredSections.length then "...".toList else []) ++
              ".".toList }]
       else []
   | _, _ => [])

/-- The unit alternation of passInconsistency, in regular-expression order. -/
def UNIT_ALTS : List Str :=
  ["ms".toList, "s".toList, "MB".toList, "GB".toList, "KB".toList,
   "rpm".toList, "rps".toList, "req/s".toList]

/-- Global scan of `/\b(\d+)\s*(ms|s|MB|GB|KB|rpm|rps|req\/s)\b/gi`,
returning (full match text, unit text) pairs. -/
def numericScan : Nat → Option Char → Str → List (Str × Str)
  | 0, _, _ => []
  | _ + 1, _, [] => []
  | fuel + 1, prev, c :: rest =>
    let s := c :: rest
    let boundary := match prev with | none => true | some p => !isWordChar p
    let ds := s.takeWhile isDigit
    if boundary && decide (1 ≤ ds.length) then
      let afterD := s.drop ds.length
      let ws := afterD.takeWhile isJsWs
      let afterW := afterD.drop ws.length
      match firstAltWordCI UNIT_ALTS afterW with
      | some ulen =>
        let mlen := ds.length + ws.length + ulen
        (s.take mlen, afterW.take ulen) ::
          numericScan fuel (s.take mlen).getLast? (s.drop mlen)
      | none => numericScan fuel (some c) rest
    else numericScan fuel (some c) rest
  termination_by structural fuel => fuel

/-- `passInconsistency` of status.ts: collect numeric-value-plus-unit
matches of every artifact, bucket by lower-cased unit in first-seen order,
and flag units with more than one distinct value across more than one
artifact. -/
def passInconsistency (artifacts : List (Str × Str)) : List Finding :=
  let entries := artifacts.flatMap (fun lc =>
    (numericScan lc.2.length none lc.2).map (fun mv => (toLowerStr mv.2, lc.1, mv.1)))
  let units := dedupStrs (entries.map (fun e => e.1))
  units.filterMap (fun u =>
    let unitEntries := entries.filter (fun e => e.1 = u)
    let uniqueValues := dedupStrs (unitEntries.map (fun e => toLowerStr e.2.2))
    let distinctLabels := dedupStrs (unitEntries.map (fun e => e.2.1))
    if 1 < uniqueValues.length && 1 < unitEntries.length && 1 < distinctLabels.length then
      some { severity := Severity.MEDIUM, pass := "Inconsistency".toList
             message := "Different ".toList ++ u ++
               " values found across artifacts (".toList ++
               List.intercalate ", ".toList uniqueValues ++
               "). Verify these are intentional.".toList }
    else none)

/-- One artifact-map entry for a main document (JavaScript falsiness: a
missing or empty document is not added to the map). -/
def optArtifact (key : Str) : Option Str → List (Str × Str)
  | some t => if t.isEmpty then [] else [(key, t)]
  | none => []

/-- The inputs of the analyze tool: the seven optional main documents plus
the contract and checklist files that were read successfully, keyed by base
name. -/
structure AnalyzeInputs where
  spec : Option Str
  plan : Option Str
  tasks : Option Str
  research : Option Str
  dataModel : Option Str
  quickstart : Option Str
  constitution : Option Str
  contracts : List (Str × Str)
  checklists : List (Str × Str)

/-- The artifact map of analyzeTool.execute, in insertion order. -/
def artifactMap (inp : AnalyzeInputs) : List (Str × Str) :=
  optArtifact "spec.md".toList inp.spec ++
  optArtifact "plan.md".toList inp.plan ++
  optArtifact "tasks.md".toList inp.tasks ++
  optArtifact "research.md".toList inp.research ++
  optArtifact "data-model.md".toList inp.dataModel ++
  optArtifact "quickstart.md".toList inp.quickstart ++
  inp.contracts.map (fun p => ("contracts/".toList ++ p.1, p.2)) ++
  inp.checklists.map (fun p => ("checklists/".toList ++ p.1, p.2))

/-- The severity sort of analyzeTool.execute,
`allFindings.sort((a, b) => SEVERITY_ORDER[a.severity] - SEVERITY_ORDER[b.severity])`
(stable by the ECMAScript sort contract). -/
def sortFindings (l : List Finding) : List Finding :=
  stableSortByRank (fun f => SEVERITY_ORDER f.severity) l

/-- Pass label of the constitution-alignment pass. -/
def CONST_ALIGN_PASS : Str := "Constitution Alignment".toList

/-- The CRITICAL finding emitted for a constitutional technology choice that
the specification does not reference. -/
def techChoiceFinding (key choiceValue : Str) : Finding :=
  { severity := Severity.CRITICAL
    pass := CONST_ALIGN_PASS
    message := "spec.md does not reference the constitutional ".toList ++ key ++
      " choice: \"".toList ++ choiceValue ++ "\".".toList }

/-- The HIGH finding emitted when the constitution itself still contains an
unresolved `[NEEDS CLARIFICATION]` marker. -/
def constitutionMarkerFinding : Finding :=
  { severity := Severity.HIGH
    pass := CONST_ALIGN_PASS
    message :=
      "constitution.md still contains unresolved [NEEDS CLARIFICATION] markers.".toList }

/-- Does a trimmed technology-choice value qualify for a finding?  The
source condition
`choiceValue && !choiceValue.startsWith("[") && choiceValue.length > 2 && !spec.includes(choiceValue)`. -/
def techChoiceFires (sp choiceValue : Str) : Bool :=
  choiceValue ≠ [] && !(choiceValue.head? = some '[') && decide (2 < choiceValue.length) &&
    !containsSub sp choiceValue

/-- `passConstitutionAlignment` of status.ts.  `none` models a `null` read;
the guard `if (!constitution || !spec) return []` also treats a present but
empty document as absent (JavaScript falsiness of the empty string). -/
def passConstitutionAlignment (spec constitution : Option Str) : List Finding :=
  match constitution, spec with
  | some con, some sp =>
    if con = [] ∨ sp = [] then []
    else
      ((techChoices con).filterMap (fun kv =>
        let choiceValue := trimStr kv.2
        if techChoiceFires sp choiceValue then some (techChoiceFinding kv.1 choiceValue)
        else none)) ++
      (if containsCI con "[NEEDS CLARIFICATION]".toList then [constitutionMarkerFinding]
       else [])
  | _, _ => []

/-- The concatenation of the six passes' findings in fixed pass order
(lines 749-756 of status.ts). -/
def allFindings (inp : AnalyzeInputs) : List Finding :=
  passDuplication (artifactMap inp) ++
  passAmbiguity (artifactMap inp) ++
  passUnderspecification inp.spec inp.plan inp.tasks ++
  passConstitutionAlignment inp.spec inp.constitution ++
  passCoverageGaps inp.spec inp.plan inp.tasks ++
  passInconsistency (artifactMap inp)

/-- The findings returned by the analyze tool (sorted, capped at 50) and
the true pre-truncation total. -/
def analyzeFindings (inp : AnalyzeInputs) : List Finding × Nat :=
  ((sortFindings (allFindings inp)).take 50, (allFindings inp).length)

/-- Severity names as rendered in the report. -/
def severityName : Severity → Str
  | Severity.CRITICAL => "CRITICAL".toList
  | Severity.HIGH => "HIGH".toList
  | Severity.MEDIUM => "MEDIUM".toList
  | Severity.LOW => "LOW".toList

/-- EXISTS / MISSING inventory entry (JavaScript truthiness). -/
def existsStr (doc : Option Str) : Str :=
  if isFalsy doc then "MISSING".toList else "EXISTS".toList

/-- `- [ ]` or `- [x]` checkbox occurrence: the unanchored task-count
pattern of analyzeTool.execute (dash, space, bracket, space-or-x, bracket). -/
def matchTaskboxAt (s : Str) : Option Nat :=
  match dropLiteral "- [".toList s with
  | some (c :: d :: _) => if (c = ' ' || c = 'x') && d = ']' then some 5 else none
  | _ => none

/-- `- [x]` completed-checkbox occurrence (same pattern, x required). -/
def matchDoneboxAt (s : Str) : Option Nat :=
  if (dropLiteral "- [x]".toList s).isSome then some 5 else none

/-- Rational model of `Math.round((completed / total) * 100)` (round half
up; the source computes this in floating point, which agrees on the small
counts involved). -/
def jsRound100 (completed total : Nat) : Nat :=
  (200 * completed + total) / (2 * total)

/-- The analyze response: returned findings, the true total finding count,
and the rendered report text (the run date appears only in the text). -/
structure AnalyzeReport where
  findings : List Finding
  totalFindingCount : Nat
  text : Str

/-- The report assembly of analyzeTool.execute (lines 704-825 of
status.ts): inventory, task progress, severity-grouped findings with the
truncation note, and the fixed pass list, joined by newlines.  The file
inventory counts model the successfully read contract and checklist files. -/
def analyzeReport (today featureName : Str) (inp : AnalyzeInputs) : AnalyzeReport :=
  let artifacts := artifactMap inp
  let all := allFindings inp
  let findings := (sortFindings all).take 50
  let truncated := decide (50 < all.length)
  let inventoryLines :=
    ["- constitution.md: ".toList ++ existsStr inp.constitution,
     "- spec.md: ".toList ++ existsStr inp.spec,
     "- plan.md: ".toList ++ existsStr inp.plan,
     "- tasks.md: ".toList ++ existsStr inp.tasks,
     "- research.md: ".toList ++ existsStr inp.research,
     "- data-model.md: ".toList ++ existsStr inp.dataModel,
     "- quickstart.md: ".toList ++ existsStr inp.quickstart] ++
    (if 0 < inp.contracts.length then
      ["- contracts/: ".toList ++ decimal inp.contracts.length ++ " file".toList ++
        (if inp.contracts.length = 1 then [] else ['s'])]
     else []) ++
    (if 0 < inp.checklists.length then
      ["- checklists/: ".toList ++ decimal inp.checklists.length ++ " file".toList ++
        (if inp.checklists.length = 1 then [] else ['s'])]
     else [])
  let taskProgressLines :=
    match inp.tasks with
    | some tk =>
      if tk.isEmpty then []
      else
        let totalTasks := countPatAux matchTaskboxAt tk.length tk
        let completedTasks := countPatAux matchDoneboxAt tk.length tk
        ["## Task Progress".toList,
         [],
         "- Total: ".toList ++ decimal totalTasks,
         "- Completed: ".toList ++ decimal completedTasks,
         "- Remaining: ".toList ++ decimal (totalTasks - completedTasks),
         "- Progress: ".toList ++
           decimal (if 0 < totalTasks then jsRound100 completedTasks totalTasks else 0) ++
           ['%'],
         []]
    | none => []
  let groupLines :=
    ([Severity.CRITICAL, Severity.HIGH, Severity.MEDIUM, Severity.LOW].map (fun sev =>
      let group := findings.filter (fun f => f.severity = sev)
      if 0 < group.length then
        ["### ".toList ++ severityName sev ++ " (".toList ++ decimal group.length ++ [')'],
         []] ++
        group.map (fun f => "- [".toList ++ f.pass ++ "] ".toList ++ f.message) ++
        [[]]
      else [])).flatten
  let findingLines :=
    ["## Findings".toList, []] ++ groupLines ++
    (if findings.length = 0 then
      ["No issues found. All artifacts appear consistent.".toList, []]
     else []) ++
    (if truncated then
      ["> Note: ".toList ++ decimal all.length ++
        " total findings — only the top 50 are shown.".toList, []]
     else [])
  { findings := findings
    totalFindingCount := all.length
    text := joinNl
      (["# Analysis Report: ".toList ++ featureName,
        "**Date**: ".toList ++ today,
        "**Artifacts read**: ".toList ++ decimal artifacts.length,
        "**Findings**: ".toList ++ decimal findings.length ++
          (if truncated then " (of ".toList ++ decimal all.length ++ [')'] else []),
        [],
        "## Artifact Inventory".toList,
        []] ++
       inventoryLines ++ [[]] ++ taskProgressLines ++ findingLines ++
       ["## Analysis Passes".toList,
        [],
        "1. Duplication — repeated requirements across artifacts".toList,
        "2. Ambiguity — vague language, unresolved markers".toList,
        "3. Underspecification — missing sections, no acceptance criteria".toList,
        "4. Constitution Alignment — key violations (automatic CRITICAL)".toList,
        "5. Coverage Gaps — requirements without plan coverage, plan items without tasks".toList,
        "6. Inconsistency — contradicting values across artifacts".toList]) }

/-- The contiguous slice of `n` characters starting at index `a`. -/
def strSlice (s : Str) (a n : Nat) : Str := (s.drop a).take n

/-- Modelled from the amended claim wording for comparison with the
source's rendering: `Q<n> [<category>] (line <n>): Regarding "<excerpt>" —
please clarify this ambiguity.`, line reference omitted for document-level
candidates. -/
def amendedQuestionTemplate (n : Nat) (category : Str) (lineNumber : Nat)
    (excerpt : Str) : Str :=
  "Q".toList ++ decimal n ++ " [".toList ++ category ++ "]".toList ++
  (if 0 < lineNumber then " (line ".toList ++ decimal lineNumber ++ ")".toList
   else []) ++
  ": Regarding \"".toList ++ excerpt ++
  "\" — please clarify this ambiguity.".toList

/-!  Helper lemmas: the stable insertion sort. -/

theorem mem_insertByRank {α : Type} (r : α → Nat) (a x : α) (l : List α)
    (hx : x ∈ insertByRank r a l) : x = a ∨ x ∈ l := by
  induction l with
  | nil => simpa [insertByRank] using hx
  | cons b bs ih =>
    by_cases hab : r a ≤ r b
    · simpa [insertByRank, hab] using hx
    · simp only [insertByRank, if_neg hab, List.mem_cons] at hx
      rcases hx with h | h
      · exact Or.inr (by simp [h])
      · rcases ih h with h' | h'
        · exact Or.inl h'
        · exact Or.inr (by simp [h'])

theorem pairwise_insertByRank {α : Type} (r : α → Nat) (a : α) (l : List α)
    (hl : List.Pairwise (fun x y => r x ≤ r y) l) :
    List.Pairwise (fun x y => r x ≤ r y) (insertByRank r a l) := by
  induction l with
  | nil => simp [insertByRank]
  | cons b bs ih =>
    by_cases hab : r a ≤ r b
    · rw [insertByRank, if_pos hab]
      refine List.Pairwise.cons ?_ hl
      intro x hx
      rcases List.mem_cons.mp hx with h | h
      · exact h ▸ hab
      · exact le_trans hab (List.rel_of_pairwise_cons hl h)
    · rw [insertByRank, if_neg hab]
      refine List.Pairwise.cons ?_ (ih (List.Pairwise.of_cons hl))
      intro x hx
      rcases mem_insertByRank r a x bs hx with h | h
      · exact h ▸ Nat.le_of_lt (Nat.lt_of_not_le hab)
      · exact List.rel_of_pairwise_cons hl h

theorem sorted_stableSortByRank {α : Type} (r : α → Nat) (l : List α) :
    List.Pairwise (fun x y => r x ≤ r y) (stableSortByRank r l) := by
  induction l with
  | nil => simp [stableSortByRank]
  | cons a as ih => exact pairwise_insertByRank r a _ ih

theorem perm_insertByRank {α : Type} (r : α → Nat) (a : α) (l : List α) :
    List.Perm (insertByRank r a l) (a :: l) := by
  induction l with
  | nil => simp [insertByRank]
  | cons b bs ih =>
    by_cases hab : r a ≤ r b
    · rw [insertByRank, if_pos hab]
    · rw [insertByRank, if_neg hab]
      exact List.Perm.trans (List.Perm.cons b ih) (List.Perm.swap a b bs)

theorem perm_stableSortByRank {α : Type} (r : α → Nat) (l : List α) :
    List.Perm (stableSortByRank r l) l := by
  induction l with
  | nil => simp [stableSortByRank]
  | cons a as ih =>
    exact List.Perm.trans (perm_insertByRank r a _) (List.Perm.cons a ih)

theorem length_stableSortByRank {α : Type} (r : α → Nat) (l : List α) :
    (stableSortByRank r l).length = l.length :=
  (perm_stableSortByRank r l).length_eq

theorem filter_insertByRank {α : Type} (r : α → Nat) (k : Nat) (a : α) (l : List α) :
    (insertByRank r a l).filter (fun x => decide (r x = k)) =
      if r a = k then a :: l.filter (fun x => decide (r x = k))
      else l.filter (fun x => decide (r x = k)) := by
  induction l with
  | nil => by_cases h : r a = k <;> simp [insertByRank, h]
  | cons b bs ih =>
    by_cases hab : r a ≤ r b
    · rw [insertByRank, if_pos hab]
      by_cases hak : r a = k <;> simp [List.filter_cons, hak]
    · rw [insertByRank, if_neg hab]
      by_cases hak : r a = k
      · have hbk : ¬ (r b = k) := by
          intro hbk
          exact hab (le_of_eq (hak.trans hbk.symm))
        simp [List.filter_cons, hbk, ih, hak]
      · by_cases hbk : r b = k <;> simp [List.filter_cons, hbk, ih, hak]

theorem filter_stableSortByRank {α : Type} (r : α → Nat) (k : Nat) (l : List α) :
    (stableSortByRank r l).filter (fun x => decide (r x = k)) =
      l.filter (fun x => decide (r x = k)) := by
  induction l with
  | nil => simp [stableSortByRank]
  | cons a as ih =>
    rw [stableSortByRank, filter_insertByRank]
    by_cases hak : r a = k <;> simp [List.filter, hak, ih]

/-- C9: If either the specification or the constitution is absent, the
Constitution Alignment pass returns an empty finding list; in particular a
missing specification suppresses even the HIGH unresolved-marker finding
for a present constitution containing such markers. -/
theorem constitutionAlignment_absent_input_empty :
    (∀ con : Option Str, passConstitutionAlignment none con = []) ∧
    (∀ sp : Option Str, passConstitutionAlignment sp none = []) := by
  constructor
  · intro con
    cases con <;> rfl
  · intro sp
    cases sp <;> rfl

/-- C2 counterexample: at the out-of-range index `-1` (no marker at that
position) on a document with one marker, the answer operation fails (the
source reads `allMatches[-1].index`, which throws) instead of appending. -/
theorem answer_negative_index_fails :
    answerOp "[NEEDS CLARIFICATION]".toList (-1) "x".toList = none := by decide

/-- C2 (amended): for every index at or beyond the marker count, the answer
operation does not fail: it returns the original text with the (undated)
section `## Clarification Answer (Q<index+1>)` containing the answer
appended at the end, reports the answer as appended, and every byte of the
original document is preserved at its original position. -/
theorem answer_out_of_range_appends (text answer : Str) (index : Int)
    (h : ((findMarkers text).length : Int) ≤ index) :
    answerOp text index answer =
      some (text ++ appendedSection index answer, AppliedAt.appended) ∧
    (text ++ appendedSection index answer).take text.length = text := by
  constructor
  · simp only [answerOp, if_pos h]
  · simpa using List.take_left text (appendedSection index answer)

/-- C2 witness: the append branch evaluated at a concrete document with one
marker and the out-of-range index 5. -/
theorem answer_out_of_range_appends_witness :
    ((findMarkers "a[NEEDS CLARIFICATION]b".toList).length : Int) ≤ 5 ∧
    (answerOp "a[NEEDS CLARIFICATION]b".toList 5 "ans".toList =
      some ("a[NEEDS CLARIFICATION]b".toList ++ appendedSection 5 "ans".toList,
        AppliedAt.appended) ∧
    ("a[NEEDS CLARIFICATION]b".toList ++ appendedSection 5 "ans".toList).take
        "a[NEEDS CLARIFICATION]b".toList.length = "a[NEEDS CLARIFICATION]b".toList) :=
  ⟨by decide, answer_out_of_range_appends "a[NEEDS CLARIFICATION]b".toList "ans".toList 5 (by decide)⟩

/-- C3: the scan returns at most 5 questions; the analyze operation returns
at most 50 findings, never more than the reported total, and the reported
total equals the true pre-truncation finding count. -/
theorem caps_questions_and_findings :
    (∀ content : Str, (buildQuestions (detectAmbiguities content)).length ≤ 5) ∧
    (∀ inp : AnalyzeInputs,
      (analyzeFindings inp).1.length ≤ 50 ∧
      (analyzeFindings inp).1.length ≤ (analyzeFindings inp).2 ∧
      (analyzeFindings inp).2 = (allFindings inp).length) := by
  constructor
  · intro content
    have h : (selectedCandidates (detectAmbiguities content)).length ≤ 5 := by
      simpa [selectedCandidates] using
        (List.length_take_le 5 (stableSortByRank (fun c => categoryPriority c.category)
          (dedupAux [] (detectAmbiguities content))))
    simpa [buildQuestions] using h
  · intro inp
    refine ⟨by simpa [analyzeFindings] using List.length_take_le 50 (sortFindings (allFindings inp)), ?_, rfl⟩
    have h1 : ((sortFindings (allFindings inp)).take 50).length ≤
        (sortFindings (allFindings inp)).length :=
      List.length_take_le' 50 _
    have h2 : (sortFindings (allFindings inp)).length = (allFindings inp).length :=
      length_stableSortByRank _ _
    simpa [analyzeFindings, h2] using h1

theorem sortFindings_filter_severity (l : List Finding) (sev : Severity) :
    (sortFindings l).filter (fun f => decide (f.severity = sev)) =
      l.filter (fun f => decide (f.severity = sev)) := by
  have horder : ∀ f : Finding,
      (decide (f.severity = sev)) = decide (SEVERITY_ORDER f.severity = SEVERITY_ORDER sev) := by
    intro f
    have hiff : (f.severity = sev) ↔ (SEVERITY_ORDER f.severity = SEVERITY_ORDER sev) := by
      constructor
      · intro h; rw [h]
      · intro h
        cases hf : f.severity <;> cases hs : sev <;> simp_all [SEVERITY_ORDER]
    simp [hiff]
  calc (sortFindings l).filter (fun f => decide (f.severity = sev))
      = (sortFindings l).filter
          (fun f => decide (SEVERITY_ORDER f.severity = SEVERITY_ORDER sev)) :=
        List.filter_congr (fun f _ => horder f)
    _ = l.filter (fun f => decide (SEVERITY_ORDER f.severity = SEVERITY_ORDER sev)) :=
        filter_stableSortByRank (fun f => SEVERITY_ORDER f.severity) (SEVERITY_ORDER sev) l
    _ = l.filter (fun f => decide (f.severity = sev)) :=
        List.filter_congr (fun f _ => (horder f).symm)

theorem sorted_sortFindings (l : List Finding) :
    List.Pairwise (fun a b => SEVERITY_ORDER a.severity ≤ SEVERITY_ORDER b.severity)
      ((sortFindings l).take 50) :=
  List.Pairwise.sublist (List.take_sublist 50 _)
    (sorted_stableSortByRank (fun f => SEVERITY_ORDER f.severity) l)

/-- C4: the analyze output is sorted by severity rank (adjacent findings
are in non-decreasing rank under CRITICAL < HIGH < MEDIUM < LOW), and the
sort is stable: the findings of each severity appear exactly in the order
produced by the fixed pass concatenation. -/
theorem analyze_severity_sorted_stable (inp : AnalyzeInputs) :
    List.Pairwise
      (fun a b => SEVERITY_ORDER a.severity ≤ SEVERITY_ORDER b.severity)
      (analyzeFindings inp).1 ∧
    ∀ sev : Severity,
      (sortFindings (allFindings inp)).filter (fun f => decide (f.severity = sev)) =
        (allFindings inp).filter (fun f => decide (f.severity = sev)) := by
  constructor
  · simp only [analyzeFindings]
    exact sorted_sortFindings (allFindings inp)
  · exact fun sev => sortFindings_filter_severity (allFindings inp) sev

/-- C6: candidate and finding generation is a pure function of the document
text: across two runs on identical input (differing only in the run date,
the one run-varying ingredient of the rendered responses), the scan's
question list and candidate count and the analyze findings and total are
identical. -/
theorem scan_analyze_run_independent :
    (∀ d₁ d₂ fn sp text, (scanResponse d₁ fn sp text).questions =
        (scanResponse d₂ fn sp text).questions ∧
      (scanResponse d₁ fn sp text).candidateCount =
        (scanResponse d₂ fn sp text).candidateCount) ∧
    (∀ d₁ d₂ fn inp, (analyzeReport d₁ fn inp).findings =
        (analyzeReport d₂ fn inp).findings ∧
      (analyzeReport d₁ fn inp).totalFindingCount =
        (analyzeReport d₂ fn inp).totalFindingCount) := by
  constructor
  · intro d₁ d₂ fn sp text
    cases text with
    | none => exact ⟨rfl, rfl⟩
    | some content =>
      constructor
      · unfold scanResponse
        split <;> simp only [apply_ite ScanResponse.questions, ite_self]
      · unfold scanResponse
        split <;> simp only [apply_ite ScanResponse.candidateCount, ite_self]
  · intro d₁ d₂ fn inp
    exact ⟨rfl, rfl⟩

theorem str_contains_iff (k : Str) (seen : List Str) :
    seen.contains k = true ↔ k ∈ seen := by
  induction seen with
  | nil => simp
  | cons s ss ih =>
    simp only [List.contains_cons, List.mem_cons, Bool.or_eq_true, beq_iff_eq, ih]

theorem dedupAux_sublist (seen : List Str) (l : List AmbiguityCandidate) :
    (dedupAux seen l).Sublist l := by
  induction l generalizing seen with
  | nil => simp [dedupAux]
  | cons c cs ih =>
    by_cases h : seen.contains (candKey c)
    · rw [dedupAux, if_pos h]
      exact List.Sublist.cons c (ih seen)
    · rw [dedupAux, if_neg h]
      exact List.Sublist.cons₂ c (ih (candKey c :: seen))

theorem mem_dedupAux (seen : List Str) (l : List AmbiguityCandidate)
    (c : AmbiguityCandidate) (hc : c ∈ dedupAux seen l) : candKey c ∉ seen := by
  induction l generalizing seen with
  | nil => simp [dedupAux] at hc
  | cons d cs ih =>
    by_cases h : seen.contains (candKey d)
    · rw [dedupAux, if_pos h] at hc
      exact ih seen hc
    · rw [dedupAux, if_neg h] at hc
      rcases List.mem_cons.mp hc with rfl | hmem
      · exact fun hk => h ((str_contains_iff _ _).mpr hk)
      · intro hk
        exact ih (candKey d :: seen) hmem (List.mem_cons_of_mem _ hk)

theorem pairwise_dedupAux (seen : List Str) (l : List AmbiguityCandidate) :
    List.Pairwise (fun a b => candKey a ≠ candKey b) (dedupAux seen l) := by
  induction l generalizing seen with
  | nil => simp [dedupAux]
  | cons c cs ih =>
    by_cases h : seen.contains (candKey c)
    · rw [dedupAux, if_pos h]
      exact ih seen
    · rw [dedupAux, if_neg h]
      refine List.Pairwise.cons ?_ (ih (candKey c :: seen))
      intro b hb hkey
      exact mem_dedupAux _ _ b hb (by simp [hkey])

theorem find?_dedupAux (seen : List Str) (l : List AmbiguityCandidate)
    (c : AmbiguityCandidate) (hc : c ∈ dedupAux seen l) :
    l.find? (fun d => decide (candKey d = candKey c)) = some c := by
  induction l generalizing seen with
  | nil => simp [dedupAux] at hc
  | cons d cs ih =>
    by_cases h : seen.contains (candKey d)
    · rw [dedupAux, if_pos h] at hc
      have hne : candKey d ≠ candKey c := by
        intro he
        exact mem_dedupAux seen cs c hc (he ▸ (str_contains_iff _ _).mp h)
      rw [List.find?_cons_of_neg _ (by simpa using hne)]
      exact ih seen hc
    · rw [dedupAux, if_neg h] at hc
      rcases List.mem_cons.mp hc with rfl | hmem
      · exact List.find?_cons_of_pos _ (by simp)
      · have hne : candKey d ≠ candKey c := by
          intro he
          exact mem_dedupAux _ _ c hmem (by simp [he])
        rw [List.find?_cons_of_neg _ (by simpa using hne)]
        exact ih (candKey d :: seen) hmem

theorem find?_congr_on {α : Type} (l : List α) (p q : α → Bool)
    (h : ∀ x ∈ l, p x = q x) : l.find? p = l.find? q := by
  induction l with
  | nil => simp
  | cons a as ih =>
    by_cases hp : p a
    · rw [List.find?_cons_of_pos _ hp, List.find?_cons_of_pos _ (by rw [← h a (by simp)]; exact hp)]
    · rw [List.find?_cons_of_neg _ hp,
        List.find?_cons_of_neg _ (by rw [← h a (by simp)]; exact hp)]
      exact ih (fun x hx => h x (by simp [hx]))

theorem lineCandidates_category (n : Nat) (line : Str) (c : AmbiguityCandidate)
    (hc : c ∈ lineCandidates n line) : c.category ∈ TAXONOMY := by
  unfold lineCandidates at hc
  rcases List.mem_append.mp hc with h123 | h4
  · rcases List.mem_append.mp h123 with h12 | h3
    · rcases List.mem_append.mp h12 with h1 | h2
      · obtain ⟨m, _, rfl⟩ := List.mem_map.mp h1
        show "Missing acceptance criteria".toList ∈ TAXONOMY
        decide
      · obtain ⟨m, _, rfl⟩ := List.mem_map.mp h2
        show "Vague quantifiers".toList ∈ TAXONOMY
        decide
    · split at h3
      · obtain ⟨m, _, rfl⟩ := List.mem_map.mp h3
        show "Undefined terms".toList ∈ TAXONOMY
        decide
      · simp at h3
  · split at h4
    · rcases List.mem_singleton.mp h4 with rfl
      show "Missing acceptance criteria".toList ∈ TAXONOMY
      decide
    · simp at h4

theorem detect_category_mem (content : Str) (c : AmbiguityCandidate)
    (hc : c ∈ detectAmbiguities content) : c.category ∈ TAXONOMY := by
  unfold detectAmbiguities at hc
  rcases List.mem_append.mp hc with h12 | h3
  · rcases List.mem_append.mp h12 with h1 | h2
    · obtain ⟨l', hl', hcl⟩ := List.mem_flatten.mp h1
      obtain ⟨p, _, rfl⟩ := List.mem_map.mp hl'
      exact lineCandidates_category _ _ c hcl
    · split at h2
      · rcases List.mem_singleton.mp h2 with rfl
        show "Missing error handling".toList ∈ TAXONOMY
        decide
      · simp at h2
  · split at h3
    · rcases List.mem_singleton.mp h3 with rfl
      show "Missing non-functional requirements".toList ∈ TAXONOMY
      decide
    · simp at h3

theorem sep_key_inj (a : Str) : ∀ (b x y : Str), ':' ∉ a → ':' ∉ b →
    a ++ ':' :: x = b ++ ':' :: y → a = b ∧ x = y := by
  induction a with
  | nil =>
    intro b x y _ hb he
    cases b with
    | nil => simpa using he
    | cons d bs =>
      exfalso
      simp only [List.nil_append, List.cons_append, List.cons.injEq] at he
      exact hb (he.1 ▸ List.mem_cons_self _ _)
  | cons d as ih =>
    intro b x y ha hb he
    cases b with
    | nil =>
      exfalso
      simp only [List.nil_append, List.cons_append, List.cons.injEq] at he
      exact ha (by simp [he.1])
    | cons e bs =>
      simp only [List.cons_append, List.cons.injEq] at he
      obtain ⟨rfl, he2⟩ := he
      have ha' : ':' ∉ as := fun h => ha (List.mem_cons_of_mem _ h)
      have hb' : ':' ∉ bs := fun h => hb (List.mem_cons_of_mem _ h)
      obtain ⟨rfl, rfl⟩ := ih bs x y ha' hb' he2
      exact ⟨rfl, rfl⟩

theorem taxonomy_colon_free : ∀ t ∈ TAXONOMY, ':' ∉ t := by decide

theorem candKey_pair_iff (a b : AmbiguityCandidate)
    (ha : a.category ∈ TAXONOMY) (hb : b.category ∈ TAXONOMY) :
    candKey a = candKey b ↔ (a.category = b.category ∧ a.excerpt = b.excerpt) := by
  constructor
  · intro h
    exact sep_key_inj a.category b.category a.excerpt b.excerpt
      (taxonomy_colon_free _ ha) (taxonomy_colon_free _ hb) h
  · intro ⟨h1, h2⟩
    simp [candKey, h1, h2]

/-- C5: no two candidates underlying the returned questions share the same
(category, excerpt) pair, and the deduplication keeps the first-seen
candidate of each pair, in first-seen order (a sublist of the detector
output in which each kept candidate is the first with its pair). -/
theorem scan_question_dedup (content : Str) :
    List.Pairwise (fun a b => ¬ (a.category = b.category ∧ a.excerpt = b.excerpt))
      (selectedCandidates (detectAmbiguities content)) ∧
    (dedupAux [] (detectAmbiguities content)).Sublist (detectAmbiguities content) ∧
    (∀ c ∈ dedupAux [] (detectAmbiguities content),
      (detectAmbiguities content).find?
        (fun d => decide (d.category = c.category ∧ d.excerpt = c.excerpt)) = some c) := by
  refine ⟨?_, dedupAux_sublist [] _, ?_⟩
  · have hkey : List.Pairwise (fun a b => candKey a ≠ candKey b)
        (dedupAux [] (detectAmbiguities content)) := pairwise_dedupAux [] _
    have hpair : List.Pairwise
        (fun a b : AmbiguityCandidate =>
          ¬ (a.category = b.category ∧ a.excerpt = b.excerpt))
        (dedupAux [] (detectAmbiguities content)) := by
      refine hkey.imp ?_
      intro a b hne hp
      exact hne (by simp [candKey, hp.1, hp.2])
    have hsym : ∀ {x y : AmbiguityCandidate},
        (¬ (x.category = y.category ∧ x.excerpt = y.excerpt)) →
          ¬ (y.category = x.category ∧ y.excerpt = x.excerpt) := by
      intro x y h hp
      exact h ⟨hp.1.symm, hp.2.symm⟩
    have hperm := perm_stableSortByRank (fun c => categoryPriority c.category)
      (dedupAux [] (detectAmbiguities content))
    have hsorted := (List.Perm.pairwise_iff hsym hperm).mpr hpair
    exact List.Pairwise.sublist (List.take_sublist 5 _) hsorted
  · intro c hc
    have hfind := find?_dedupAux [] _ c hc
    have hcmem : c ∈ detectAmbiguities content :=
      (dedupAux_sublist [] (detectAmbiguities content)).subset hc
    have hctax : c.category ∈ TAXONOMY := detect_category_mem content c hcmem
    rw [← hfind]
    apply find?_congr_on
    intro d hd
    have hdtax := detect_category_mem content d hd
    have hiff := candKey_pair_iff d c hdtax hctax
    exact decide_eq_decide.mpr hiff.symm

/-- C5 witness: the deduplicated candidate list of the document `TODO`
contains the marker candidate, and it is the first detector candidate with
its (category, excerpt) pair. -/
theorem scan_question_dedup_witness :
    (⟨1, "TODO".toList, "Missing acceptance criteria".toList, "TODO".toList⟩ :
        AmbiguityCandidate) ∈ dedupAux [] (detectAmbiguities "TODO".toList) ∧
    (detectAmbiguities "TODO".toList).find?
      (fun d => decide (d.category = "Missing acceptance criteria".toList ∧
        d.excerpt = "TODO".toList)) =
      some ⟨1, "TODO".toList, "Missing acceptance criteria".toList, "TODO".toList⟩ :=
  ⟨by decide, (scan_question_dedup "TODO".toList).2.2
    ⟨1, "TODO".toList, "Missing acceptance criteria".toList, "TODO".toList⟩ (by decide)⟩

/-- C8 counterexample: on the document `TODO` the first question produced
by the scan is rendered with the trailing text `please clarify this
ambiguity.`, which differs from the claimed template ending `please
clarify` instantiated at the same candidate data. -/
theorem question_template_counterexample :
    (buildQuestions (detectAmbiguities "TODO".toList)).get? 0 =
      some "Q1 [Missing acceptance criteria] (line 1): Regarding \"TODO\" — please clarify this ambiguity.".toList ∧
    ("Q1 [Missing acceptance criteria] (line 1): Regarding \"TODO\" — please clarify this ambiguity.".toList : Str) ≠
      claimQuestionTemplate 1 "Missing acceptance criteria".toList 1 "TODO".toList := by
  constructor
  · decide
  · decide

/-- C8 (amended): every question returned by the scan is rendered exactly
as `Q<n> [<category>] (line <l>): Regarding "<excerpt>" — please clarify
this ambiguity.` from its candidate, with the line reference omitted for
document-level candidates (line number 0) and `n` the 1-based question
position. -/
theorem questions_rendered_amended (content : Str) (i : Nat)
    (h : i < (selectedCandidates (detectAmbiguities content)).length) :
    (buildQuestions (detectAmbiguities content)).get? i =
      some (amendedQuestionTemplate (i + 1)
        ((selectedCandidates (detectAmbiguities content)).get ⟨i, h⟩).category
        ((selectedCandidates (detectAmbiguities content)).get ⟨i, h⟩).lineNumber
        ((selectedCandidates (detectAmbiguities content)).get ⟨i, h⟩).excerpt) := by
  unfold buildQuestions
  rw [List.get?_map, List.enum_get?, List.get?_eq_get h]
  rfl

/-- C8 witness: the amended rendering evaluated at the document `TODO`,
question position 0. -/
theorem questions_rendered_amended_witness :
    0 < (selectedCandidates (detectAmbiguities "TODO".toList)).length ∧
    (buildQuestions (detectAmbiguities "TODO".toList)).get? 0 =
      some (amendedQuestionTemplate 1 "Missing acceptance criteria".toList 1
        "TODO".toList) := by
  refine ⟨by decide, ?_⟩
  rw [questions_rendered_amended "TODO".toList 0 (by decide)]
  decide

theorem countP_congr_on {α : Type} (l : List α) (p q : α → Bool)
    (h : ∀ a ∈ l, p a = q a) : l.countP p = l.countP q := by
  induction l with
  | nil => simp
  | cons a as ih =>
    rw [List.countP_cons, List.countP_cons, h a (by simp),
      ih (fun x hx => h x (by simp [hx]))]

theorem count_filterMap_eq {α β : Type} [DecidableEq β] (f : α → Option β)
    (l : List α) (b : β) :
    (l.filterMap f).count b = l.countP (fun a => decide (f a = some b)) := by
  induction l with
  | nil => simp
  | cons a as ih =>
    cases hf : f a with
    | none => simp [List.filterMap_cons, hf, List.countP_cons, ih]
    | some x => simp [List.filterMap_cons, hf, List.count_cons, List.countP_cons, ih]

theorem matchKeyPrefix_mem (ks : List Str) (s : Str) (k r : Str)
    (h : matchKeyPrefix ks s = some (k, r)) : k ∈ ks := by
  induction ks with
  | nil => simp [matchKeyPrefix] at h
  | cons k' ks' ih =>
    rw [matchKeyPrefix] at h
    cases hd : dropLiteral ("**".toList ++ k' ++ "**:".toList) s with
    | some rest =>
      rw [hd] at h
      simp only [Option.some.injEq, Prod.mk.injEq] at h
      simp [h.1]
    | none =>
      rw [hd] at h
      exact List.mem_cons_of_mem _ (ih h)

theorem matchTechChoiceAt_key (s : Str) (k v : Str) (len : Nat)
    (h : matchTechChoiceAt s = some (k, v, len)) : k ∈ TECH_KEYS := by
  unfold matchTechChoiceAt at h
  cases hm : matchKeyPrefix TECH_KEYS s with
  | none => rw [hm] at h; simp at h
  | some kr =>
    rw [hm] at h
    obtain ⟨k', rest⟩ := kr
    dsimp only at h
    cases hs : searchValueStart (rest.takeWhile isJsWs).length rest with
    | none => rw [hs] at h; simp at h
    | some j =>
      rw [hs] at h
      simp only [Option.some.injEq, Prod.mk.injEq] at h
      exact h.1 ▸ matchKeyPrefix_mem TECH_KEYS s k' rest hm

theorem techChoiceScan_keys (fuel : Nat) (s : Str) (kv : Str × Str)
    (h : kv ∈ techChoiceScan fuel s) : kv.1 ∈ TECH_KEYS := by
  induction fuel generalizing s with
  | zero => simp [techChoiceScan] at h
  | succ fuel ih =>
    cases s with
    | nil => simp [techChoiceScan] at h
    | cons c rest =>
      rw [techChoiceScan] at h
      cases hm : matchTechChoiceAt (c :: rest) with
      | none =>
        rw [hm] at h
        exact ih rest h
      | some kvl =>
        obtain ⟨k, v, len⟩ := kvl
        rw [hm] at h
        rcases List.mem_cons.mp h with rfl | h'
        · exact matchTechChoiceAt_key _ _ _ _ hm
        · exact ih _ h'

theorem techChoiceFinding_inj (k₁ k₂ v₁ v₂ : Str)
    (h₁ : k₁ ∈ TECH_KEYS) (h₂ : k₂ ∈ TECH_KEYS)
    (he : techChoiceFinding k₁ v₁ = techChoiceFinding k₂ v₂) :
    k₁ = k₂ ∧ v₁ = v₂ := by
  have hmsg : k₁ ++ (" choice: \"".toList ++ (v₁ ++ "\".".toList)) =
      k₂ ++ (" choice: \"".toList ++ (v₂ ++ "\".".toList)) := by
    have hq := congrArg Finding.message he
    simp only [techChoiceFinding, List.append_assoc] at hq
    exact List.append_cancel_left hq
  fin_cases h₁ <;> fin_cases h₂ <;>
    first
    | (refine ⟨rfl, ?_⟩
       exact List.append_cancel_right (List.append_cancel_left (List.append_cancel_left hmsg)))
    | (exfalso
       have h0 := congrArg (fun l => l.get? 0) hmsg
       simp only at h0
       rw [List.get?_append (by decide), List.get?_append (by decide)] at h0
       exact absurd h0 (by decide))

/-- C7: if the constitution declares exactly one technology choice for a
recognized key whose trimmed value passes the non-placeholder conditions
and the specification does not contain that value verbatim, the
Constitution Alignment pass emits exactly one CRITICAL finding naming that
key and value. -/
theorem constitution_tech_choice_critical (con sp k tv : Str)
    (hcon : con ≠ []) (hsp : sp ≠ [])
    (hk : k ∈ TECH_KEYS)
    (hcount : (techChoices con).countP
      (fun kv => decide (kv.1 = k ∧ trimStr kv.2 = tv)) = 1)
    (hfires : techChoiceFires sp tv = true) :
    (passConstitutionAlignment (some sp) (some con)).count
      (techChoiceFinding k tv) = 1 := by
  have hne : (constitutionMarkerFinding == techChoiceFinding k tv) = false := by
    apply beq_eq_false_iff_ne.mpr
    intro he
    have h2 := congrArg Finding.severity he
    rw [show constitutionMarkerFinding.severity = Severity.HIGH from rfl,
      show (techChoiceFinding k tv).severity = Severity.CRITICAL from rfl] at h2
    exact absurd h2 (by decide)
  unfold passConstitutionAlignment
  dsimp only
  rw [if_neg (by simp [hcon, hsp])]
  rw [List.count_append]
  have htail : (if containsCI con "[NEEDS CLARIFICATION]".toList
      then [constitutionMarkerFinding] else []).count (techChoiceFinding k tv) = 0 := by
    split
    · simp [List.count_cons, hne]
    · simp
  rw [htail, Nat.add_zero, count_filterMap_eq]
  rw [← hcount]
  apply countP_congr_on
  intro kv hkv
  have hkvmem : kv.1 ∈ TECH_KEYS := techChoiceScan_keys con.length con kv hkv
  apply decide_eq_decide.mpr
  dsimp only
  constructor
  · intro heq
    by_cases hf : techChoiceFires sp (trimStr kv.2)
    · rw [if_pos hf] at heq
      exact techChoiceFinding_inj kv.1 k (trimStr kv.2) tv hkvmem hk (by simpa using heq)
    · rw [if_neg hf] at heq
      exact absurd heq (by simp)
  · intro hand
    rw [hand.2, if_pos hfires, hand.1]

/-- C7 witness: scenario B — a constitution declaring `**Storage**:
PostgreSQL` and a specification never mentioning PostgreSQL yield exactly
one CRITICAL finding naming the Storage choice. -/
theorem constitution_tech_choice_critical_witness :
    ("**Storage**: PostgreSQL\n".toList : Str) ≠ [] ∧
    ("# Spec\nNo database here.\n".toList : Str) ≠ [] ∧
    "Storage".toList ∈ TECH_KEYS ∧
    (techChoices "**Storage**: PostgreSQL\n".toList).countP
      (fun kv => decide (kv.1 = "Storage".toList ∧
        trimStr kv.2 = "PostgreSQL".toList)) = 1 ∧
    techChoiceFires "# Spec\nNo database here.\n".toList "PostgreSQL".toList = true ∧
    (passConstitutionAlignment (some "# Spec\nNo database here.\n".toList)
      (some "**Storage**: PostgreSQL\n".toList)).count
      (techChoiceFinding "Storage".toList "PostgreSQL".toList) = 1 :=
  ⟨by decide, by decide, by decide, by decide, by decide,
   constitution_tech_choice_critical "**Storage**: PostgreSQL\n".toList
     "# Spec\nNo database here.\n".toList "Storage".toList "PostgreSQL".toList
     (by decide) (by decide) (by decide) (by decide) (by decide)⟩

theorem matchCI_some_length (ps : Str) : ∀ (s r : Str), matchCI ps s = some r →
    s.length = ps.length + r.length := by
  induction ps with
  | nil =>
    intro s r h
    simp only [matchCI, Option.some.injEq] at h
    simp [h]
  | cons p ps ih =>
    intro s r h
    cases s with
    | nil => simp [matchCI] at h
    | cons c cs =>
      rw [matchCI] at h
      by_cases hc : lowerChar c = lowerChar p
      · rw [if_pos hc] at h
        have := ih cs r h
        simp [this]
        omega
      · rw [if_neg hc] at h
        exact absurd h (by simp)

theorem matchMarkerAt_bounds (s : Str) (len : Nat)
    (h : matchMarkerAt s = some len) : 21 ≤ len ∧ len ≤ s.length := by
  unfold matchMarkerAt at h
  cases hm : matchCI markerPat s with
  | none => rw [hm] at h; simp at h
  | some rest =>
    rw [hm] at h
    dsimp only at h
    by_cases hrun : (rest.takeWhile (fun c => c != ']')).length < rest.length
    · rw [if_pos hrun] at h
      have hlen := matchCI_some_length markerPat s rest hm
      have hpat : markerPat.length = 20 := by decide
      simp only [Option.some.injEq] at h
      omega
    · rw [if_neg hrun] at h
      exact absurd h (by simp)

theorem scanAux_fuel_irrel : ∀ (f₁ : Nat), ∀ (f₂ : Nat) (s : Str),
    s.length ≤ f₁ → s.length ≤ f₂ → scanAux f₁ s = scanAux f₂ s := by
  intro f₁
  induction f₁ with
  | zero =>
    intro f₂ s h₁ _
    have : s = [] := List.length_eq_zero.mp (Nat.le_zero.mp h₁)
    subst this
    cases f₂ <;> simp [scanAux]
  | succ f₁ ih =>
    intro f₂ s h₁ h₂
    cases s with
    | nil => cases f₂ <;> simp [scanAux]
    | cons c rest =>
      cases f₂ with
      | zero => simp at h₂
      | succ f₂ =>
        rw [scanAux, scanAux]
        cases hm : matchMarkerAt (c :: rest) with
        | some len =>
          dsimp only
          have hb := matchMarkerAt_bounds _ _ hm
          have hrec : scanAux f₁ ((c :: rest).drop len) =
              scanAux f₂ ((c :: rest).drop len) := by
            apply ih <;>
              (simp only [List.length_drop, List.length_cons] at *; omega)
          rw [hrec]
        | none =>
          dsimp only
          have hrec : scanAux f₁ rest = scanAux f₂ rest := by
            apply ih <;> (simp only [List.length_cons] at h₁ h₂; omega)
          rw [hrec]

theorem scanAux_mem_bounds : ∀ (fuel : Nat) (s : Str) (p l : Nat),
    s.length ≤ fuel → (p, l) ∈ scanAux fuel s → p + l ≤ s.length ∧ 21 ≤ l := by
  intro fuel
  induction fuel with
  | zero => intro s p l _ h; simp [scanAux] at h
  | succ fuel ih =>
    intro s p l hf h
    cases s with
    | nil => simp [scanAux] at h
    | cons c rest =>
      rw [scanAux] at h
      cases hm : matchMarkerAt (c :: rest) with
      | some len =>
        rw [hm] at h
        have hb := matchMarkerAt_bounds _ _ hm
        rcases List.mem_cons.mp h with he | hmem
        · injection he with h1 h2
          simp only [List.length_cons] at *
          omega
        · obtain ⟨⟨pq, lq⟩, hp', he⟩ := List.mem_map.mp hmem
          simp only [Prod.mk.injEq] at he
          have hlen : ((c :: rest).drop len).length ≤ fuel := by
            simp only [List.length_drop, List.length_cons] at *
            omega
          have hr := ih _ pq lq hlen hp'
          simp only [List.length_drop, List.length_cons] at *
          omega
      | none =>
        rw [hm] at h
        obtain ⟨⟨pq, lq⟩, hp', he⟩ := List.mem_map.mp h
        simp only [Prod.mk.injEq] at he
        have hr := ih rest pq lq (by simp only [List.length_cons] at hf; omega) hp'
        simp only [List.length_cons] at *
        omega

theorem scanAux_pairwise : ∀ (fuel : Nat) (s : Str),
    List.Pairwise (fun a b => a.1 + a.2 ≤ b.1) (scanAux fuel s) := by
  intro fuel
  induction fuel with
  | zero => intro s; simp [scanAux]
  | succ fuel ih =>
    intro s
    cases s with
    | nil => simp [scanAux]
    | cons c rest =>
      rw [scanAux]
      cases hm : matchMarkerAt (c :: rest) with
      | some len =>
        refine List.Pairwise.cons ?_ ?_
        · intro q hq
          obtain ⟨⟨p', l'⟩, _, he⟩ := List.mem_map.mp hq
          simp only [← he]
          omega
        · exact (List.pairwise_map).mpr ((ih _).imp (by intro a b hab; simpa using by omega))
      | none =>
        exact (List.pairwise_map).mpr ((ih _).imp (by intro a b hab; simpa using by omega))

theorem strSlice_append_left (l₁ l₂ : Str) (a n : Nat) (h : a + n ≤ l₁.length) :
    strSlice (l₁ ++ l₂) a n = strSlice l₁ a n := by
  unfold strSlice
  rw [List.drop_append_of_le_length (by omega)]
  rw [List.take_append_of_le_length (by simp; omega)]

theorem strSlice_take (l : Str) (k a n : Nat) (h : a + n ≤ k) :
    strSlice (l.take k) a n = strSlice l a n := by
  unfold strSlice
  rw [List.drop_take, List.take_take]
  congr 1
  omega

theorem strSlice_append_right (l₁ l₂ : Str) (a n : Nat) :
    strSlice (l₁ ++ l₂) (l₁.length + a) n = strSlice l₂ a n := by
  unfold strSlice
  rw [List.drop_append]

/-- C1: for a document with markers and a valid zero-based index `i`, the
answer operation replaces exactly the i-th marker occurrence with the
annotation embedding the answer: the result is the prefix before the
marker, then `[CLARIFIED: <answer>]`, then the suffix after it; the bytes
before and after the replaced span are unchanged, and every other marker's
bytes are byte-identical at its (shifted) position in the result. -/
theorem answer_inline_frame (text answer : Str) (i p l : Nat)
    (h : i < (findMarkers text).length)
    (hm : (findMarkers text).get ⟨i, h⟩ = (p, l)) :
    answerOp text (i : Int) answer =
      some (text.take p ++ clarifiedText answer ++ text.drop (p + l),
        AppliedAt.inline) ∧
    (text.take p ++ clarifiedText answer ++ text.drop (p + l)).take p =
      text.take p ∧
    (text.take p ++ clarifiedText answer ++ text.drop (p + l)).drop
      (p + (clarifiedText answer).length) = text.drop (p + l) ∧
    ∀ (j : Nat) (hj : j < (findMarkers text).length) (q m : Nat),
      (findMarkers text).get ⟨j, hj⟩ = (q, m) →
      (j < i → strSlice (text.take p ++ clarifiedText answer ++
          text.drop (p + l)) q m = strSlice text q m) ∧
      (i < j → strSlice (text.take p ++ clarifiedText answer ++
          text.drop (p + l))
          (p + (clarifiedText answer).length + (q - (p + l))) m =
        strSlice text q m) := by
  have hmem : (p, l) ∈ findMarkers text := hm ▸ List.get_mem _ _ _
  have hbounds := scanAux_mem_bounds text.length text p l (le_refl _) hmem
  have htake : (text.take p).length = p := by
    rw [List.length_take]
    omega
  have hpw : List.Pairwise (fun a b => a.1 + a.2 ≤ b.1) (findMarkers text) :=
    scanAux_pairwise text.length text
  refine ⟨?_, ?_, ?_, ?_⟩
  · unfold answerOp
    rw [if_neg (by push_cast; omega), if_neg (by omega)]
    rw [show ((i : Int)).toNat = i from Int.toNat_natCast i]
    rw [List.get?_eq_get h, hm]
  · rw [List.append_assoc, List.take_append_of_le_length (le_of_eq htake.symm)]
    simp [List.take_take]
  · have hlen2 : (text.take p ++ clarifiedText answer).length =
        p + (clarifiedText answer).length := by simp [htake]
    rw [← hlen2, List.drop_left]
  · intro j hj q m hqm
    constructor
    · intro hji
      have hle : q + m ≤ p := by
        have := List.pairwise_iff_get.mp hpw ⟨j, hj⟩ ⟨i, h⟩ hji
        rw [hm, hqm] at this
        exact this
      rw [List.append_assoc, strSlice_append_left _ _ q m (by omega),
        strSlice_take text p q m hle]
    · intro hij
      have hle : p + l ≤ q := by
        have := List.pairwise_iff_get.mp hpw ⟨i, h⟩ ⟨j, hj⟩ hij
        rw [hm, hqm] at this
        exact this
      have hlen2 : (text.take p ++ clarifiedText answer).length =
          p + (clarifiedText answer).length := by simp [htake]
      rw [← hlen2, strSlice_append_right]
      unfold strSlice
      rw [List.drop_drop]
      congr 2
      omega

/-- C1 witness: the inline replacement evaluated at a concrete document
with two markers, answering index 1. -/
theorem answer_inline_frame_witness :
    1 < (findMarkers "x[NEEDS CLARIFICATION]y[NEEDS CLARIFICATION: b]z".toList).length ∧
    answerOp "x[NEEDS CLARIFICATION]y[NEEDS CLARIFICATION: b]z".toList ((1 : Nat) : Int)
        "ok".toList =
      some ("x[NEEDS CLARIFICATION]y[NEEDS CLARIFICATION: b]z".toList.take 23 ++
        clarifiedText "ok".toList ++
        "x[NEEDS CLARIFICATION]y[NEEDS CLARIFICATION: b]z".toList.drop (23 + 24),
        AppliedAt.inline) :=
  ⟨by decide,
   (answer_inline_frame "x[NEEDS CLARIFICATION]y[NEEDS CLARIFICATION: b]z".toList
     "ok".toList 1 23 24 (by decide) (by decide)).1⟩

/-- C10 counterexample: answering the only marker of
`[NEEDS CLARIFICATION]` with the answer `[NEEDS CLARIFICATION x` — which
contains no occurrence of the unresolved-marker pattern (it has no closing
bracket) — produces a document with 1 marker, not N − 1 = 0: the
annotation's closing bracket completes a new marker. -/
theorem answer_marker_count_counterexample :
    (findMarkers "[NEEDS CLARIFICATION]".toList).length = 1 ∧
    (findMarkers "[NEEDS CLARIFICATION x".toList).length = 0 ∧
    answerOp "[NEEDS CLARIFICATION]".toList 0 "[NEEDS CLARIFICATION x".toList =
      some ("[CLARIFIED: [NEEDS CLARIFICATION x]".toList, AppliedAt.inline) ∧
    (findMarkers "[CLARIFIED: [NEEDS CLARIFICATION x]".toList).length = 1 := by
  refine ⟨by decide, by decide, by decide, by decide⟩

theorem lowerChar_eq_lbracket (c : Char) (h : lowerChar c = '[') : c = '[' := by
  unfold lowerChar at h
  by_cases hc : 'A' ≤ c ∧ c ≤ 'Z'
  · rw [if_pos hc] at h
    exfalso
    have h1 : (Char.ofNat (c.toNat + 32)).toNat = '['.toNat := by rw [h]
    have hcz : c.toNat ≤ 'Z'.toNat := hc.2
    have hca : 'A'.toNat ≤ c.toNat := hc.1
    have hval : (Char.ofNat (c.toNat + 32)).toNat = c.toNat + 32 := by
      have hlt : c.toNat + 32 < 55296 := by
        have : 'Z'.toNat = 90 := by decide
        omega
      simp [Char.ofNat, Char.toNat, Char.ofNatAux, Nat.isValidChar]
      rw [dif_pos (Or.inl (show c.val.toNat + 32 < 55296 from hlt))]
      simp [UInt32.toNat, BitVec.toNat_ofNatLt]
    rw [hval] at h1
    have : '['.toNat = 91 := by decide
    have : 'A'.toNat = 65 := by decide
    omega
  · rw [if_neg hc] at h
    exact h

theorem lowerChar_rbracket : lowerChar ']' = ']' := by decide

theorem markerPat_get_ne_rbracket :
    ∀ o, o < 20 → lowerChar (markerPat.getD o ' ') ≠ ']' := by decide

theorem markerPat_get_ne_lbracket :
    ∀ o, 1 ≤ o → o < 20 → lowerChar (markerPat.getD o ' ') ≠ '[' := by decide

theorem markerPat_length : markerPat.length = 20 := by decide

theorem matchCI_iff (ps : Str) : ∀ (s r : Str),
    matchCI ps s = some r ↔
      ∃ u, s = u ++ r ∧
        List.Forall₂ (fun pc c => lowerChar c = lowerChar pc) ps u := by
  induction ps with
  | nil =>
    intro s r
    constructor
    · intro h
      simp only [matchCI, Option.some.injEq] at h
      exact ⟨[], by simp [h], List.Forall₂.nil⟩
    · intro ⟨u, he, hf⟩
      have : u = [] := List.length_eq_zero.mp (List.Forall₂.length_eq hf).symm
      subst this
      simp only [List.nil_append] at he
      simp [matchCI, he]
  | cons pc ps ih =>
    intro s r
    constructor
    · intro h
      cases s with
      | nil => simp [matchCI] at h
      | cons c cs =>
        rw [matchCI] at h
        by_cases hc : lowerChar c = lowerChar pc
        · rw [if_pos hc] at h
          obtain ⟨u, he, hf⟩ := (ih cs r).mp h
          exact ⟨c :: u, by simp [he], List.Forall₂.cons hc hf⟩
        · rw [if_neg hc] at h
          exact absurd h (by simp)
    · intro ⟨u, he, hf⟩
      cases hf with
      | cons hc hf' =>
        rename_i c u'
        subst he
        rw [List.cons_append, matchCI, if_pos hc]
        exact (ih _ r).mpr ⟨u', rfl, hf'⟩

theorem matchCI_of_forall₂ (ps u r : Str)
    (hf : List.Forall₂ (fun pc c => lowerChar c = lowerChar pc) ps u) :
    matchCI ps (u ++ r) = some r :=
  (matchCI_iff ps (u ++ r) r).mpr ⟨u, rfl, hf⟩

theorem takeWhile_split (p : Char → Bool) (l : Str)
    (h : (l.takeWhile p).length < l.length) :
    ∃ c t, l = l.takeWhile p ++ c :: t ∧ p c = false := by
  induction l with
  | nil => simp at h
  | cons a as ih =>
    by_cases hp : p a
    · rw [List.takeWhile_cons_of_pos hp] at h ⊢
      simp only [List.length_cons, Nat.add_lt_add_iff_right] at h
      obtain ⟨c, t, he, hc⟩ := ih h
      exact ⟨c, t, by rw [List.cons_append, ← he], hc⟩
    · rw [List.takeWhile_cons_of_neg hp]
      exact ⟨a, as, by simp, by simpa using hp⟩

theorem takeWhile_run (p : Char → Bool) (run : Str) (c : Char) (t : Str)
    (hrun : ∀ d ∈ run, p d = true) (hc : p c = false) :
    (run ++ c :: t).takeWhile p = run := by
  induction run with
  | nil =>
    have hcc : ¬ p c = true := by simp [hc]
    simp only [List.nil_append]
    exact List.takeWhile_cons_of_neg hcc
  | cons a as ih =>
    rw [List.cons_append, List.takeWhile_cons_of_pos (hrun a (by simp))]
    rw [ih (fun d hd => hrun d (by simp [hd]))]

theorem mem_takeWhile_pred (p : Char → Bool) (l : Str) (d : Char)
    (hd : d ∈ l.takeWhile p) : p d = true := by
  induction l with
  | nil => simp at hd
  | cons a as ih =>
    by_cases hp : p a
    · rw [List.takeWhile_cons_of_pos hp] at hd
      rcases List.mem_cons.mp hd with rfl | hmem
      · exact hp
      · exact ih hmem
    · rw [List.takeWhile_cons_of_neg hp] at hd
      simp at hd

theorem get?_append_length (A : Str) (b : Char) (t : Str) :
    (A ++ b :: t).get? A.length = some b := by
  induction A with
  | nil => simp
  | cons a as ih => simpa using ih

theorem take_append_cons_one (run : Str) (c : Char) (t : Str) :
    (run ++ c :: t).take (run.length + 1) = run ++ [c] := by
  induction run with
  | nil => simp
  | cons a as ih => simp [ih]

theorem matchMarkerAt_struct (s : Str) (len : Nat)
    (h : matchMarkerAt s = some len) :
    ∃ u run t, s = u ++ (run ++ ']' :: t) ∧
      List.Forall₂ (fun pc c => lowerChar c = lowerChar pc) markerPat u ∧
      (∀ c ∈ run, (c != ']') = true) ∧ len = markerPat.length + run.length + 1 := by
  unfold matchMarkerAt at h
  cases hm : matchCI markerPat s with
  | none => rw [hm] at h; simp at h
  | some rest =>
    rw [hm] at h
    dsimp only at h
    by_cases hrun : (rest.takeWhile (fun c => c != ']')).length < rest.length
    · rw [if_pos hrun] at h
      simp only [Option.some.injEq] at h
      obtain ⟨u, he, hf⟩ := (matchCI_iff markerPat s rest).mp hm
      obtain ⟨c, t, hrest, hc⟩ := takeWhile_split _ rest hrun
      have hcrb : c = ']' := by
        by_contra hne
        simp [hne] at hc
      subst hcrb
      refine ⟨u, rest.takeWhile (fun c => c != ']'), t, ?_, hf, ?_, ?_⟩
      · rw [he]
        conv_lhs => rw [hrest]
      · intro d hd
        exact mem_takeWhile_pred _ rest d hd
      · omega
    · rw [if_neg hrun] at h
      exact absurd h (by simp)

theorem matchMarkerAt_head (s : Str) (len : Nat)
    (h : matchMarkerAt s = some len) : s.get? 0 = some '[' := by
  obtain ⟨u, run, t, he, hf, _, _⟩ := matchMarkerAt_struct s len h
  have hpat : markerPat = '[' :: "NEEDS CLARIFICATION".toList := rfl
  rw [hpat] at hf
  cases hf with
  | cons hc hf' =>
    rename_i c u'
    have : c = '[' := lowerChar_eq_lbracket c (by rw [hc]; decide)
    subst this
    rw [he]
    rfl

theorem matchMarkerAt_rbracket (s : Str) (len : Nat)
    (h : matchMarkerAt s = some len) : s.get? (len - 1) = some ']' := by
  obtain ⟨u, run, t, he, hf, _, hlen⟩ := matchMarkerAt_struct s len h
  have hu : u.length = markerPat.length := (List.Forall₂.length_eq hf).symm
  rw [he, ← List.append_assoc]
  rw [show len - 1 = (u ++ run).length from by simp; omega]
  exact get?_append_length (u ++ run) ']' t

theorem matchMarkerAt_take_extend (s : Str) (len : Nat) (z : Str)
    (h : matchMarkerAt s = some len) :
    matchMarkerAt (s.take len ++ z) = some len := by
  obtain ⟨u, run, t, he, hf, hrun, hlen⟩ := matchMarkerAt_struct s len h
  have hu : u.length = markerPat.length := (List.Forall₂.length_eq hf).symm
  have htake : s.take len = u ++ (run ++ [']']) := by
    rw [he]
    rw [show len = u.length + (run.length + 1) from by omega]
    rw [List.take_append]
    rw [take_append_cons_one]
  rw [htake]
  have hassoc : u ++ (run ++ [']']) ++ z = u ++ (run ++ ']' :: z) := by
    simp [List.append_assoc]
  rw [hassoc]
  unfold matchMarkerAt
  rw [matchCI_of_forall₂ markerPat u (run ++ ']' :: z) hf]
  dsimp only
  rw [takeWhile_run _ run ']' z hrun (by simp)]
  rw [if_pos (by simp)]
  simp only [Option.some.injEq]
  omega

theorem scanAux_mem_match : ∀ (fuel : Nat) (s : Str) (p l : Nat),
    s.length ≤ fuel → (p, l) ∈ scanAux fuel s →
    matchMarkerAt (s.drop p) = some l := by
  intro fuel
  induction fuel with
  | zero => intro s p l _ h; simp [scanAux] at h
  | succ fuel ih =>
    intro s p l hf h
    cases s with
    | nil => simp [scanAux] at h
    | cons c rest =>
      rw [scanAux] at h
      cases hm : matchMarkerAt (c :: rest) with
      | some len =>
        rw [hm] at h
        have hb := matchMarkerAt_bounds _ _ hm
        rcases List.mem_cons.mp h with he | hmem
        · injection he with h1 h2
          subst h1; subst h2
          simpa using hm
        · obtain ⟨⟨pq, lq⟩, hp', heq⟩ := List.mem_map.mp hmem
          simp only [Prod.mk.injEq] at heq
          have hlen : ((c :: rest).drop len).length ≤ fuel := by
            simp only [List.length_drop, List.length_cons] at *
            omega
          have hr := ih _ pq lq hlen hp'
          rw [List.drop_drop] at hr
          rw [show p = len + pq from by omega]
          rwa [show lq = l from heq.2] at hr
      | none =>
        rw [hm] at h
        obtain ⟨⟨pq, lq⟩, hp', heq⟩ := List.mem_map.mp h
        simp only [Prod.mk.injEq] at heq
        have hr := ih rest pq lq (by simp only [List.length_cons] at hf; omega) hp'
        rw [show p = pq + 1 from by omega]
        rw [List.drop_succ_cons]
        rwa [show lq = l from heq.2] at hr

theorem takeWhile_length_le (p : Char → Bool) (l : Str) :
    (l.takeWhile p).length ≤ l.length := by
  induction l with
  | nil => simp
  | cons a as ih =>
    by_cases hp : p a
    · rw [List.takeWhile_cons_of_pos hp]
      simpa using ih
    · rw [List.takeWhile_cons_of_neg hp]
      simp

theorem takeWhile_length_eq_all (p : Char → Bool) (l : Str)
    (h : (l.takeWhile p).length = l.length) : ∀ c ∈ l, p c = true := by
  induction l with
  | nil => simp
  | cons a as ih =>
    by_cases hp : p a
    · rw [List.takeWhile_cons_of_pos hp] at h
      simp only [List.length_cons, Nat.add_right_cancel_iff] at h
      intro c hc
      rcases List.mem_cons.mp hc with rfl | hmem
      · exact hp
      · exact ih h c hmem
    · rw [List.takeWhile_cons_of_neg hp] at h
      simp at h

theorem forall₂_get? {R : Char → Char → Prop} : ∀ (l₁ l₂ : Str),
    List.Forall₂ R l₁ l₂ → ∀ (i : Nat) (a b : Char),
    l₁.get? i = some a → l₂.get? i = some b → R a b := by
  intro l₁ l₂ h
  induction h with
  | nil => intro i a b ha _; simp at ha
  | cons hR hrest ih =>
    intro i a b ha hb
    cases i with
    | zero =>
      simp only [List.get?_cons_zero, Option.some.injEq] at ha hb
      exact ha ▸ hb ▸ hR
    | succ i => exact ih i a b (by simpa using ha) (by simpa using hb)

theorem markerPat_get?_ne_lbracket :
    ∀ p, p < 20 → 1 ≤ p → lowerChar ((markerPat.get? p).getD ' ') ≠ '[' := by decide

theorem markerPat_get?_ne_rbracket :
    ∀ p, p < 20 → lowerChar ((markerPat.get? p).getD ' ') ≠ ']' := by decide

theorem matchMarkerAt_none_congr (x y : Str) (p : Nat)
    (hp : 1 ≤ p)
    (hagree : x.take (p + 1) = y.take (p + 1))
    (hlb : x.get? p = some '[')
    (hrb : ∃ r, p ≤ r ∧ x.get? r = some ']')
    (hx : matchMarkerAt x = none) :
    matchMarkerAt y = none := by
  cases hY : matchMarkerAt y with
  | none => rfl
  | some m =>
    exfalso
    obtain ⟨uy, runy, ty, hey, hfy, hruny, hmlen⟩ := matchMarkerAt_struct y m hY
    have huy : uy.length = 20 := by
      have := (List.Forall₂.length_eq hfy).symm
      rwa [markerPat_length] at this
    by_cases hp20 : p < 20
    · -- the pattern would have to match `[` at offset p ∈ [1, 20)
      have hyp : y.get? p = some '[' := by
        have h1 := congrArg (fun l => l.get? p) hagree
        simp only at h1
        rw [List.get?_take (by omega), List.get?_take (by omega)] at h1
        rw [← h1]
        exact hlb
      have hyup : uy.get? p = some '[' := by
        rw [hey, List.get?_append (by omega)] at hyp
        exact hyp
      obtain ⟨pc, hpc⟩ : ∃ pc, markerPat.get? p = some pc := by
        have : p < markerPat.length := by rw [markerPat_length]; omega
        cases hq : markerPat.get? p with
        | none => rw [List.get?_eq_none] at hq; omega
        | some c => exact ⟨c, rfl⟩
      have hR := forall₂_get? markerPat uy hfy p pc '[' hpc hyup
      have := markerPat_get?_ne_lbracket p hp20 hp
      rw [hpc] at this
      simp only [Option.getD_some] at this
      rw [show lowerChar '[' = '[' from by decide] at hR
      exact this hR.symm
    · -- 20 ≤ p: x itself matches the pattern, so its `]`-hunt must have failed,
      -- contradicting the `]` at or after p
      have hplen : p < x.length := by
        obtain ⟨hb, _⟩ := List.get?_eq_some.mp hlb
        exact hb
      have hyt20 : y.take 20 = uy := by
        rw [hey]
        rw [show (20 : Nat) = uy.length from huy.symm]
        exact List.take_left uy _
      have hxt20 : x.take 20 = uy := by
        have h1 := congrArg (fun l => l.take 20) hagree
        simp only [List.take_take] at h1
        rw [show min 20 (p + 1) = 20 from by omega] at h1
        rw [h1, hyt20]
      have hfx : List.Forall₂ (fun pc c => lowerChar c = lowerChar pc) markerPat (x.take 20) := by
        rw [hxt20]; exact hfy
      have hmcix : matchCI markerPat x = some (x.drop 20) := by
        have := matchCI_of_forall₂ markerPat (x.take 20) (x.drop 20) hfx
        rwa [List.take_append_drop] at this
      unfold matchMarkerAt at hx
      rw [hmcix] at hx
      dsimp only at hx
      by_cases hlt : ((x.drop 20).takeWhile (fun c => c != ']')).length < (x.drop 20).length
      · rw [if_pos hlt] at hx
        simp at hx
      · have hall := takeWhile_length_eq_all (fun c => c != ']') (x.drop 20)
          (Nat.le_antisymm (takeWhile_length_le _ _) (Nat.le_of_not_lt hlt))
        obtain ⟨r, hpr, hr⟩ := hrb
        have hrdrop : (x.drop 20).get? (r - 20) = some ']' := by
          rw [List.get?_drop]
          rw [show 20 + (r - 20) = r from by omega]
          exact hr
        have := hall ']' (List.get?_mem hrdrop)
        simp at this

theorem containsCI_of_drop (pat : Str) : ∀ (s : Str) (j : Nat),
    (matchCI pat (s.drop j)).isSome = true → containsCI s pat = true := by
  intro s
  induction s with
  | nil =>
    intro j h
    simpa [containsCI, List.drop_nil] using h
  | cons c rest ih =>
    intro j h
    cases j with
    | zero =>
      simp only [List.drop_zero] at h
      rw [containsCI]
      simp [h]
    | succ j =>
      rw [containsCI]
      simp [ih j (by simpa using h)]

theorem clarifiedText_no_match (ans t : Str)
    (hans : containsCI ans markerPat = false) :
    ∀ k, k < (clarifiedText ans).length →
    matchMarkerAt ((clarifiedText ans ++ t).drop k) = none := by
  intro k hk
  have hlen : (clarifiedText ans).length = 12 + ans.length + 1 := by
    simp [clarifiedText]
    omega
  have hC : clarifiedText ans ++ t =
      "[CLARIFIED: ".toList ++ (ans ++ (']' :: t)) := by
    simp [clarifiedText, List.append_assoc]
  by_cases h12 : k < 12
  · interval_cases k <;> rfl
  · rw [hC]
    rw [show k = ("[CLARIFIED: ".toList).length + (k - 12) from by
      rw [show ("[CLARIFIED: ".toList).length = 12 from by decide]
      omega]
    rw [List.drop_append]
    by_cases hja : k - 12 < ans.length
    · rw [List.drop_append_of_le_length (by omega)]
      cases hY : matchMarkerAt (ans.drop (k - 12) ++ ']' :: t) with
      | none => rfl
      | some m =>
        exfalso
        obtain ⟨u, run, t₂, he, hf, _, _⟩ := matchMarkerAt_struct _ m hY
        have hu : u.length = 20 := by
          have := (List.Forall₂.length_eq hf).symm
          rwa [markerPat_length] at this
        by_cases h20 : k - 12 + 20 ≤ ans.length
        · -- the whole pattern window lies inside the answer
          have hu_eq : u = (ans.drop (k - 12)).take 20 := by
            have h1 := congrArg (fun l => l.take 20) he
            simp only at h1
            rw [List.take_append_of_le_length (by simp; omega)] at h1
            rw [h1, ← hu, List.take_left]
          have hmci : (matchCI markerPat (ans.drop (k - 12))).isSome = true := by
            have := matchCI_of_forall₂ markerPat ((ans.drop (k - 12)).take 20)
              ((ans.drop (k - 12)).drop 20) (hu_eq ▸ hf)
            rw [List.take_append_drop] at this
            simp [this]
          rw [containsCI_of_drop markerPat ans (k - 12) hmci] at hans
          exact absurd hans (by simp)
        · -- the pattern window would cover the closing bracket
          have ho : (ans.drop (k - 12)).length = ans.length - (k - 12) := by simp
          have hgetrb : (ans.drop (k - 12) ++ ']' :: t).get? (ans.length - (k - 12)) =
              some ']' := by
            rw [← ho]
            exact get?_append_length _ ']' t
          have hgetu : u.get? (ans.length - (k - 12)) = some ']' := by
            rw [he, List.get?_append (by omega)] at hgetrb
            exact hgetrb
          obtain ⟨pc, hpc⟩ : ∃ pc, markerPat.get? (ans.length - (k - 12)) = some pc := by
            have : ans.length - (k - 12) < markerPat.length := by
              rw [markerPat_length]; omega
            cases hq : markerPat.get? (ans.length - (k - 12)) with
            | none => rw [List.get?_eq_none] at hq; omega
            | some c => exact ⟨c, rfl⟩
          have hR := forall₂_get? markerPat u hf _ pc ']' hpc hgetu
          have hfact := markerPat_get?_ne_rbracket (ans.length - (k - 12)) (by omega)
          rw [hpc] at hfact
          simp only [Option.getD_some] at hfact
          rw [show lowerChar ']' = ']' from by decide] at hR
          exact hfact hR.symm
    · rw [show k - 12 = ans.length + 0 from by
        rw [hlen] at hk
        omega]
      rw [List.drop_append]
      rfl

theorem scan_skip : ∀ (u : Str), ∀ (t : Str) (fuel : Nat),
    (u ++ t).length ≤ fuel →
    (∀ k, k < u.length → matchMarkerAt ((u ++ t).drop k) = none) →
    scanAux fuel (u ++ t) =
      (scanAux t.length t).map (fun q => (q.1 + u.length, q.2)) := by
  intro u
  induction u with
  | nil =>
    intro t fuel hf _
    rw [List.nil_append] at hf ⊢
    rw [scanAux_fuel_irrel fuel t.length t hf (le_refl _)]
    simp
  | cons c u' ih =>
    intro t fuel hf hnm
    cases fuel with
    | zero => simp at hf
    | succ fuel =>
      rw [List.cons_append, scanAux]
      have h0 := hnm 0 (by simp)
      simp only [List.drop_zero, List.cons_append] at h0
      rw [h0]
      dsimp only
      rw [ih t fuel
        (by simp only [List.length_append, List.length_cons] at hf ⊢; omega)
        (fun k hk => by
          have hh := hnm (k + 1) (by simp only [List.length_cons]; omega)
          exact hh)]
      rw [List.map_map]
      rfl

theorem scan_cons_some (z : Str) (len : Nat) (hm : matchMarkerAt z = some len) :
    scanAux z.length z =
      (0, len) ::
        (scanAux ((z.drop len).length) (z.drop len)).map (fun q => (q.1 + len, q.2)) := by
  have hb := matchMarkerAt_bounds z len hm
  cases z with
  | nil =>
    exfalso
    simp only [List.length_nil] at hb
    omega
  | cons c rest =>
    rw [show (c :: rest).length = rest.length + 1 from rfl, scanAux, hm]
    dsimp only
    rw [scanAux_fuel_irrel rest.length ((c :: rest).drop len).length ((c :: rest).drop len)
      (by simp only [List.length_drop, List.length_cons] at *; omega) (le_refl _)]

theorem scan_cons_none (c : Char) (rest : Str)
    (hm : matchMarkerAt (c :: rest) = none) :
    scanAux (c :: rest).length (c :: rest) =
      (scanAux rest.length rest).map (fun q => (q.1 + 1, q.2)) := by
  rw [show (c :: rest).length = rest.length + 1 from rfl, scanAux, hm]

theorem map_shift_shift (a b : Nat) (l : List (Nat × Nat)) :
    (l.map (fun q => (q.1 + a, q.2))).map (fun q => (q.1 + b, q.2)) =
      l.map (fun q => (q.1 + (a + b), q.2)) := by
  rw [List.map_map]
  congr 1
  funext q
  simp [Function.comp, Nat.add_assoc]

theorem drop_eq_of_length_eq (A : Str) (n : Nat) (B : Str) (h : A.length = n) :
    (A ++ B).drop n = B := by
  rw [← h]
  exact List.drop_left A B

theorem take_add_of_length_eq (A B : Str) (n m : Nat) (h : A.length = n) :
    (A ++ B).take (n + m) = A ++ B.take m := by
  rw [← h, List.take_append]

theorem take_one_of_get (A : Str) (a : Char) (h : A.get? 0 = some a) :
    A.take 1 = [a] := by
  cases A with
  | nil => exact Option.noConfusion h
  | cons d ds =>
    rw [List.get?_cons_zero] at h
    injection h with h
    subst h
    rfl

theorem clarifiedText_head (ans z : Str) :
    (clarifiedText ans ++ z).take 1 = ['['] := rfl

theorem scanAux_nil_get? (f i : Nat) : (scanAux f ([] : Str)).get? i = none := by
  cases f <;> exact List.get?_eq_none.mpr (by simp [scanAux])

theorem scan_replace : ∀ (fuel : Nat) (x : Str) (i p l : Nat) (ans : Str),
    x.length ≤ fuel →
    containsCI ans markerPat = false →
    (scanAux x.length x).get? i = some (p, l) →
    scanAux (x.take p ++ clarifiedText ans ++ x.drop (p + l)).length
        (x.take p ++ clarifiedText ans ++ x.drop (p + l)) =
      (scanAux x.length x).take i ++
        (scanAux ((x.drop (p + l)).length) (x.drop (p + l))).map
          (fun q => (q.1 + (p + (clarifiedText ans).length), q.2)) ∧
    (scanAux x.length x).drop (i + 1) =
      (scanAux ((x.drop (p + l)).length) (x.drop (p + l))).map
        (fun q => (q.1 + (p + l), q.2)) := by
  intro fuel
  induction fuel with
  | zero =>
    intro x i p l ans hf _ hget
    have hx : x = [] := List.length_eq_zero.mp (Nat.le_zero.mp hf)
    subst hx
    rw [scanAux_nil_get?] at hget
    exact Option.noConfusion hget
  | succ fuel ih =>
    intro x i p l ans hf hans hget
    cases x with
    | nil =>
      rw [scanAux_nil_get?] at hget
      exact Option.noConfusion hget
    | cons c rest =>
      cases hm : matchMarkerAt (c :: rest) with
      | some len =>
        have hb := matchMarkerAt_bounds _ _ hm
        have hscan := scan_cons_some (c :: rest) len hm
        cases i with
        | zero =>
          rw [hscan, List.get?_cons_zero] at hget
          simp only [Option.some.injEq, Prod.mk.injEq] at hget
          obtain ⟨h1, h2⟩ := hget
          subst h1
          subst h2
          constructor
          · simp only [List.take_zero, List.nil_append, Nat.zero_add]
            exact scan_skip (clarifiedText ans) ((c :: rest).drop len)
              ((clarifiedText ans ++ (c :: rest).drop len).length) (le_refl _)
              (clarifiedText_no_match ans ((c :: rest).drop len) hans)
          · rw [hscan, List.drop_succ_cons, List.drop_zero]
            simp only [Nat.zero_add]
        | succ i' =>
          rw [hscan, List.get?_cons_succ, List.get?_map] at hget
          obtain ⟨⟨p', l'⟩, hT, heq⟩ := Option.map_eq_some'.mp hget
          simp only [Prod.mk.injEq] at heq
          obtain ⟨hp, hl⟩ := heq
          subst hp
          subst hl
          have hflen : (((c :: rest).drop len).length) ≤ fuel := by
            simp only [List.length_drop, List.length_cons]
            simp only [List.length_cons] at hf
            omega
          have hIH := ih ((c :: rest).drop len) i' p' l' ans hflen hans hT
          have htl : (((c :: rest).take len).length) = len := by
            rw [List.length_take]
            exact Nat.min_eq_left hb.2
          have hdropx : (c :: rest).drop (p' + len + l') =
              ((c :: rest).drop len).drop (p' + l') := by
            rw [List.drop_drop, show len + (p' + l') = p' + len + l' from by omega]
          have htakex : (c :: rest).take (p' + len) =
              (c :: rest).take len ++ ((c :: rest).drop len).take p' := by
            rw [show p' + len = len + p' from by omega, List.take_add]
          have hy : (c :: rest).take (p' + len) ++ clarifiedText ans ++
                (c :: rest).drop (p' + len + l') =
              (c :: rest).take len ++
                (((c :: rest).drop len).take p' ++ clarifiedText ans ++
                  ((c :: rest).drop len).drop (p' + l')) := by
            rw [htakex, hdropx]
            simp [List.append_assoc]
          have hmy : matchMarkerAt ((c :: rest).take len ++
              (((c :: rest).drop len).take p' ++ clarifiedText ans ++
                ((c :: rest).drop len).drop (p' + l'))) = some len :=
            matchMarkerAt_take_extend (c :: rest) len _ hm
          have hscany := scan_cons_some ((c :: rest).take len ++
            (((c :: rest).drop len).take p' ++ clarifiedText ans ++
              ((c :: rest).drop len).drop (p' + l'))) len hmy
          have hdl : ((c :: rest).take len ++
              (((c :: rest).drop len).take p' ++ clarifiedText ans ++
                ((c :: rest).drop len).drop (p' + l'))).drop len =
              ((c :: rest).drop len).take p' ++ clarifiedText ans ++
                ((c :: rest).drop len).drop (p' + l') :=
            drop_eq_of_length_eq ((c :: rest).take len) len _ htl
          rw [hdl] at hscany
          have hfeq : (fun q : Nat × Nat =>
                (q.1 + (p' + (clarifiedText ans).length + len), q.2)) =
              (fun q : Nat × Nat =>
                (q.1 + (p' + len + (clarifiedText ans).length), q.2)) := by
            funext q
            rw [show p' + (clarifiedText ans).length + len =
              p' + len + (clarifiedText ans).length from by omega]
          constructor
          · rw [hy, hscany, hIH.1, hscan, hdropx, List.take_succ_cons,
              List.cons_append, List.map_append, List.map_take, map_shift_shift, hfeq]
          · rw [hscan, hdropx, List.drop_succ_cons, ← List.map_drop, hIH.2,
              map_shift_shift, show p' + l' + len = p' + len + l' from by omega]
      | none =>
        have hscan := scan_cons_none c rest hm
        rw [hscan, List.get?_map] at hget
        obtain ⟨⟨p', l'⟩, hR, heq⟩ := Option.map_eq_some'.mp hget
        simp only [Prod.mk.injEq] at heq
        obtain ⟨hp, hl⟩ := heq
        subst hp
        subst hl
        have hIH := ih rest i p' l' ans
          (by simp only [List.length_cons] at hf; omega) hans hR
        have hmd : matchMarkerAt (rest.drop p') = some l' :=
          scanAux_mem_match rest.length rest p' l' (le_refl _) (List.get?_mem hR)
        have hbnd := scanAux_mem_bounds rest.length rest p' l' (le_refl _)
          (List.get?_mem hR)
        have hlbz : (c :: rest).get? (p' + 1) = some '[' := by
          rw [List.get?_cons_succ]
          have h0 := matchMarkerAt_head _ _ hmd
          rwa [List.get?_drop] at h0
        have hrbz : ∃ r, p' + 1 ≤ r ∧ (c :: rest).get? r = some ']' := by
          refine ⟨p' + (l' - 1) + 1, by omega, ?_⟩
          rw [List.get?_cons_succ]
          have h1 := matchMarkerAt_rbracket _ _ hmd
          rwa [List.get?_drop] at h1
        have htl' : (((c :: rest).take (p' + 1)).length) = p' + 1 := by
          rw [List.length_take]
          exact Nat.min_eq_left (by simp only [List.length_cons]; omega)
        have hagree : (c :: rest).take (p' + 1 + 1) =
            ((c :: rest).take (p' + 1) ++ clarifiedText ans ++
              (c :: rest).drop (p' + 1 + l')).take (p' + 1 + 1) := by
          conv_lhs => rw [List.take_add]
          rw [List.append_assoc]
          rw [take_add_of_length_eq _ _ _ 1 htl']
          congr 1
          rw [take_one_of_get _ '[' (by rw [List.get?_drop]; exact hlbz)]
          rw [clarifiedText_head]
        have hmy : matchMarkerAt ((c :: rest).take (p' + 1) ++ clarifiedText ans ++
            (c :: rest).drop (p' + 1 + l')) = none :=
          matchMarkerAt_none_congr (c :: rest) _ (p' + 1) (by omega) hagree hlbz hrbz hm
        have hy : (c :: rest).take (p' + 1) ++ clarifiedText ans ++
              (c :: rest).drop (p' + 1 + l') =
            c :: (rest.take p' ++ clarifiedText ans ++ rest.drop (p' + l')) := by
          rw [show p' + 1 + l' = (p' + l') + 1 from by omega]
          rfl
        have hdropz : (c :: rest).drop (p' + 1 + l') = rest.drop (p' + l') := by
          rw [show p' + 1 + l' = (p' + l') + 1 from by omega]
          rfl
        have hfeq2 : (fun q : Nat × Nat =>
              (q.1 + (p' + (clarifiedText ans).length + 1), q.2)) =
            (fun q : Nat × Nat =>
              (q.1 + (p' + 1 + (clarifiedText ans).length), q.2)) := by
          funext q
          rw [show p' + (clarifiedText ans).length + 1 =
            p' + 1 + (clarifiedText ans).length from by omega]
        constructor
        · rw [hy]
          rw [scan_cons_none c
            (rest.take p' ++ clarifiedText ans ++ rest.drop (p' + l')) (hy ▸ hmy)]
          rw [hIH.1, hscan, hdropz, List.map_append, List.map_take,
            map_shift_shift, hfeq2]
        · rw [hscan, hdropz, ← List.map_drop, hIH.2, map_shift_shift,
            show p' + l' + 1 = p' + 1 + l' from by omega]

/-- C10: amended marker-count claim.  If the document's i-th unresolved
marker spans positions p to p+l and the answer contains no
case-insensitive occurrence of the marker opening (the string
NEEDS-CLARIFICATION preceded by an opening bracket), then the answer
operation applied at index i succeeds inline and the resulting document
contains exactly one fewer unresolved marker: N minus 1 where N is the
original marker count.  Without the restriction on the answer the claim
is false (see the recorded counterexample): an unterminated marker
opening inside the answer is completed by the annotation's closing
bracket and yields a fresh marker. -/
theorem answer_marker_count (text answer : Str) (i p l : Nat)
    (hans : containsCI answer markerPat = false)
    (hget : (findMarkers text).get? i = some (p, l)) :
    answerOp text (i : Int) answer =
      some (text.take p ++ clarifiedText answer ++ text.drop (p + l),
        AppliedAt.inline) ∧
    (findMarkers (text.take p ++ clarifiedText answer ++
        text.drop (p + l))).length =
      (findMarkers text).length - 1 := by
  obtain ⟨hlt, -⟩ := List.get?_eq_some.mp hget
  constructor
  · unfold answerOp
    rw [if_neg (by push_cast; omega), if_neg (by omega)]
    rw [show ((i : Int)).toNat = i from Int.toNat_natCast i]
    rw [hget]
  · have hrepl := scan_replace text.length text i p l answer (le_refl _) hans hget
    have h1 : (findMarkers (text.take p ++ clarifiedText answer ++
          text.drop (p + l))).length =
        i + (scanAux ((text.drop (p + l)).length) (text.drop (p + l))).length := by
      show (scanAux (text.take p ++ clarifiedText answer ++
          text.drop (p + l)).length
          (text.take p ++ clarifiedText answer ++ text.drop (p + l))).length = _
      rw [hrepl.1, List.length_append, List.length_take, List.length_map]
      congr 1
      exact Nat.min_eq_left (le_of_lt hlt)
    have h2 : (findMarkers text).length - (i + 1) =
        (scanAux ((text.drop (p + l)).length) (text.drop (p + l))).length := by
      have h3 := congrArg List.length hrepl.2
      rwa [List.length_drop, List.length_map] at h3
    rw [h1, ← h2]
    omega

/-- C10 witness: a document with two markers, answering index 0 with a
clean answer, yields exactly one marker. -/
theorem answer_marker_count_witness :
    containsCI "ok".toList markerPat = false ∧
    (findMarkers "a[NEEDS CLARIFICATION]b[NEEDS CLARIFICATION]c".toList).get? 0 =
      some (1, 21) ∧
    (answerOp "a[NEEDS CLARIFICATION]b[NEEDS CLARIFICATION]c".toList
          ((0 : Nat) : Int) "ok".toList =
        some ("a[NEEDS CLARIFICATION]b[NEEDS CLARIFICATION]c".toList.take 1 ++
          clarifiedText "ok".toList ++
          "a[NEEDS CLARIFICATION]b[NEEDS CLARIFICATION]c".toList.drop (1 + 21),
          AppliedAt.inline) ∧
      (findMarkers ("a[NEEDS CLARIFICATION]b[NEEDS CLARIFICATION]c".toList.take 1 ++
          clarifiedText "ok".toList ++
          "a[NEEDS CLARIFICATION]b[NEEDS CLARIFICATION]c".toList.drop (1 + 21))).length =
        (findMarkers "a[NEEDS CLARIFICATION]b[NEEDS CLARIFICATION]c".toList).length - 1) :=
  ⟨by decide, by decide,
   answer_marker_count "a[NEEDS CLARIFICATION]b[NEEDS CLARIFICATION]c".toList
     "ok".toList 0 1 21 (by decide) (by decide)⟩
